import Mathlib

/-!
Verification of the MealSplit matching and settlement engines.

This file shallow-embeds the relevant Python source files as Lean
definitions and proves (or refutes) the specification claims about them.
Python floats are modelled as exact rationals, Python strings as Lean
strings computed on their character lists, and the database rows touched
by the code as explicit record structures.  `re.sub`/`re.search` calls
are modelled by hand-written scanners that reproduce the backtracking
behaviour of each concrete pattern used in the source.

Sources embedded:
  app/services/text_normalizer.py       (TextNormalizer)
  app/services/unit_converter.py        (UnitConverter)
  app/services/gemini_service.py        (cosine clamp of GeminiService)
  app/services/advanced_matching_service.py (AdvancedMatchingService)
  app/api/v1/settlements.py             (close_week_settlement)
  app/api/v1/receipts.py                (auto-match caller filter)
-/

namespace MealSplit

/-! ## Character and string utilities

Python's `str.lower`, `str.split()`, `str.strip`, `" ".join`, `str.replace`
and the `\s`/`\w` character classes, restricted to the ASCII range that the
grocery texts use (the few non-ASCII characters appearing in the source are
handled explicitly where they occur). -/

/-- ASCII lowercase conversion of one character (Python `str.lower` on ASCII). -/
def lowerChar (c : Char) : Char :=
  if 'A' ≤ c ∧ c ≤ 'Z' then Char.ofNat (c.toNat + 32) else c

/-- Python regex `\s` class members that can occur in our texts. -/
def isWs (c : Char) : Bool :=
  c = ' ' ∨ c = '\t' ∨ c = '\n' ∨ c = '\x0d' ∨ c = '\x0b' ∨ c = '\x0c'

/-- Python regex `\w` class (ASCII): letters, digits and underscore. -/
def isWordChar (c : Char) : Bool :=
  c.isAlpha ∨ c.isDigit ∨ c = '_'

/-- The ASCII apostrophe character, built by code point to keep string
literals free of quote characters. -/
def apos : Char := Char.ofNat 39

/-- The ASCII double quote character. -/
def dquote : Char := Char.ofNat 34

/-- Python `str.split()` with no separator: split on runs of whitespace,
dropping empty fields.  Defined on character lists. -/
def splitWsAux : List Char → List Char → List String
  | [], [] => []
  | [], acc => [String.mk acc.reverse]
  | c :: cs, acc =>
    if isWs c then
      match acc with
      | [] => splitWsAux cs []
      | _ => String.mk acc.reverse :: splitWsAux cs []
    else splitWsAux cs (c :: acc)

/-- Python `text.split()`. -/
def splitWs (s : String) : List String := splitWsAux s.data []

/-- Python `" ".join(words)`. -/
def joinSpace : List String → String
  | [] => ""
  | [w] => w
  | w :: ws => w ++ " " ++ joinSpace ws

/-- Python `str.strip()`: drop leading and trailing whitespace. -/
def stripStr (s : String) : String :=
  String.mk (((s.data.dropWhile isWs).reverse.dropWhile isWs).reverse)

/-- Worker for `collapseWs`: the flag records whether the scanner is inside
a whitespace run whose single replacement space was already emitted. -/
def collapseWsAux : Bool → List Char → List Char
  | _, [] => []
  | inRun, c :: cs =>
    if isWs c then
      if inRun then collapseWsAux true cs
      else ' ' :: collapseWsAux true cs
    else c :: collapseWsAux false cs

/-- Replace every run of whitespace by one space: `re.sub(r'\s+', ' ', text)`. -/
def collapseWs (cs : List Char) : List Char := collapseWsAux false cs

/-- Decide whether `pat` occurs as a contiguous substring (Python `pat in text`). -/
def containsSub (pat : List Char) (text : List Char) : Bool :=
  match text with
  | [] => pat.isPrefixOf ([] : List Char)
  | _ :: rest => pat.isPrefixOf text || containsSub pat rest

/-- Worker for `replaceAll`, structurally recursive on a fuel that starts
at the text length: every step drops at least one character (a nonempty
matched pattern or the scanned head), so the fuel never runs out. -/
def replaceAllAux (pat rep : List Char) : Nat → List Char → List Char
  | _, [] => []
  | 0, cs => cs
  | fuel + 1, c :: cs =>
    if pat.isPrefixOf (c :: cs) ∧ pat ≠ [] then
      rep ++ replaceAllAux pat rep fuel ((c :: cs).drop pat.length)
    else
      c :: replaceAllAux pat rep fuel cs

/-- Python `str.replace(pat, rep)`: replace every non-overlapping occurrence,
scanning left to right.  For the empty pattern the source never calls it, and
we return the text unchanged. -/
def replaceAll (pat rep : List Char) (cs : List Char) : List Char :=
  replaceAllAux pat rep cs.length cs

/-! ## TextNormalizer (app/services/text_normalizer.py)

The Python class holds three vocabularies (`uk_brands`, `marketing_words`
and the stop words of `_final_cleanup`), an ordered suffix-rewrite table
`plural_patterns`, and six `re.sub` patterns in `measurement_patterns`.
`uk_brands` and `marketing_words` are Python sets; only membership tests
depend on them except for the multi-word-brand scan of `_remove_brands`,
whose iteration order over the set is unspecified in Python — we model it
as the listing order of the source file. -/

/-- String consisting of a single ASCII apostrophe. -/
def aposStr : String := String.mk [apos]

/-- The `uk_brands` set, in source listing order ("organic" is listed twice
in the source; set membership is unaffected). -/
def uk_brands : List String :=
  ["tesco", "tesco finest", "tesco value", "tesco everyday value",
   "sainsbury" ++ aposStr ++ "s", "sainsburys", "taste the difference", "basics",
   "asda", "asda extra special", "asda smart price", "george",
   "morrisons", "m savers", "the best", "eat smart",
   "waitrose", "waitrose essential", "waitrose 1", "duchy organic",
   "marks & spencer", "m&s", "marks and spencer",
   "aldi", "specially selected", "simply", "nature" ++ aposStr ++ "s pick",
   "lidl", "deluxe", "organic", "bio organic",
   "co-op", "coop", "co operative", "truly irresistible",
   "iceland", "iceland luxury",
   "own brand", "store brand", "house brand", "supermarket",
   "fresh", "freshly", "farm fresh", "garden fresh",
   "premium", "finest", "best", "select", "choice", "quality",
   "extra special", "luxury", "gourmet", "artisan", "traditional",
   "classic", "original", "authentic", "genuine", "real",
   "natural", "pure", "wholesome", "healthy", "nutritious",
   "organic", "bio", "eco", "free range", "outdoor bred",
   "grass fed", "corn fed", "wild", "sustainable",
   "fair trade", "fairtrade", "ethical", "responsible",
   "local", "british", "uk", "scottish", "welsh", "irish",
   "homemade", "home style", "farmhouse", "country", "village",
   "value", "economy", "basic", "essentials", "smart price",
   "everyday", "standard", "regular", "normal"]

/-- The `marketing_words` set. -/
def marketing_words : List String :=
  ["new", "improved", "extra", "super", "mega", "jumbo", "giant",
   "family", "sharing", "party", "celebration", "festive",
   "limited edition", "special", "seasonal", "summer", "winter",
   "crispy", "crunchy", "smooth", "creamy", "rich", "indulgent",
   "light", "lite", "reduced", "low fat", "diet", "zero",
   "vitamin", "protein", "fiber", "fibre", "enriched", "fortified",
   "handpicked", "selected", "carefully", "lovingly", "perfectly",
   "delicious", "tasty", "flavourful", "mouthwatering", "irresistible"]

/-- The ordered `plural_patterns` suffix-rewrite table. -/
def plural_patterns : List (String × String) :=
  [("ies", "y"), ("ves", "f"), ("ses", "s"), ("ches", "ch"),
   ("shes", "sh"), ("xes", "x"), ("oes", "o"), ("s", "")]

/-! ### `_basic_clean`

The source lowercases, performs four `str.replace` calls, collapses
whitespace, turns the punctuation class `[.,;:!?(){}[\]"]` into spaces and
strips.  Reading the raw bytes of the file shows that the
"fix apostrophes" replace call substitutes the ASCII apostrophe by itself
(a no-op), and that the "fix quotes" line parses as a single `str.replace`
whose pattern is a triple-quoted string holding the fifteen characters
between the two `"""` tokens. -/

/-- The fifteen-character pattern of the accidental triple-quoted string on
the "fix quotes" line of `_basic_clean`. -/
def weirdQuotePat : List Char :=
  [',', ' ', apos, dquote, apos, ')', '.', 'r', 'e', 'p', 'l', 'a', 'c', 'e', '(']

/-- The en dash, U+2013. -/
def enDash : Char := Char.ofNat 0x2013

/-- The em dash, U+2014. -/
def emDash : Char := Char.ofNat 0x2014

/-- The punctuation class `[.,;:!?(){}[\]"]` removed by `_basic_clean`. -/
def isCleanPunct (c : Char) : Bool :=
  c = '.' ∨ c = ',' ∨ c = ';' ∨ c = ':' ∨ c = '!' ∨ c = '?' ∨ c = '(' ∨ c = ')' ∨
  c = Char.ofNat 123 ∨ c = Char.ofNat 125 ∨ c = '[' ∨ c = ']' ∨ c = dquote

/-- `TextNormalizer._basic_clean`. -/
def basic_clean (text : String) : String :=
  let t := text.data.map lowerChar
  let t := replaceAll [apos] [apos] t
  let t := replaceAll weirdQuotePat [dquote] t
  let t := replaceAll [enDash] ['-'] t
  let t := replaceAll [emDash] ['-'] t
  let t := collapseWs t
  let t := t.map (fun c => if isCleanPunct c then ' ' else c)
  stripStr (String.mk t)

/-! ### `_remove_brands`

The loop iterates over the words of the *initial* text.  A word that is
itself a brand is dropped.  Otherwise the code scans the brand set for a
multi-word brand occurring anywhere in the *current* text; if one is found
it is blanked out of the text and the loop moves on without keeping the
current word; only if no multi-word brand is present is the word kept. -/

/-- The per-word loop of `_remove_brands`, carrying the mutated text. -/
def brandsScan : List String → List Char → List String
  | [], _ => []
  | w :: ws, text =>
    if uk_brands.contains w then brandsScan ws text
    else
      match uk_brands.find? (fun b => (splitWs b).length > 1 && containsSub b.data text) with
      | some b => brandsScan ws (replaceAll b.data [' '] text)
      | none => w :: brandsScan ws text

/-- `TextNormalizer._remove_brands`. -/
def remove_brands (text : String) : String :=
  joinSpace (brandsScan (splitWs text) text.data)

/-- `TextNormalizer._remove_marketing_words`. -/
def remove_marketing_words (text : String) : String :=
  joinSpace ((splitWs text).filter (fun w => !(marketing_words.contains w)))

/-! ### `_remove_measurements`

Six `re.sub(pattern, " ", text)` calls followed by a seventh removing
standalone numbers.  Each pattern is modelled by a matcher that, given the
previous character (for `\b`) and the remaining text, returns the length
of the regex match anchored at the current position, reproducing the
backtracking order of the Python engine for that particular pattern.
`re.sub` scans left to right, replacing each non-overlapping match by one
space and resuming after it. -/

/-- Leading run of ASCII digits: length and remainder. -/
def digitRun (cs : List Char) : Nat × List Char :=
  ((cs.takeWhile Char.isDigit).length, cs.dropWhile Char.isDigit)

/-- Optional fraction `(?:\.\d+)`: consumed length (dot included) and
remainder, or `none` when the dot-digits group is not present. -/
def fracPart (cs : List Char) : Option (Nat × List Char) :=
  match cs with
  | '.' :: rest =>
    let (n, r) := digitRun rest
    if n = 0 then none else some (n + 1, r)
  | _ => none

/-- True when the previous character makes `\b` hold before a word
character (start of text counts as a non-word character). -/
def prevNonWord (prev : Option Char) : Bool :=
  match prev with
  | none => true
  | some p => !(isWordChar p)

/-- True when `\b` holds between a word character and the head of `cs`
(end of text counts as a non-word character). -/
def nextNonWord (cs : List Char) : Bool :=
  match cs.head? with
  | none => true
  | some c => !(isWordChar c)

/-- Ordered unit alternatives, each tried as a prefix followed by a
trailing `\b` (regex alternation tries alternatives left to right and
checks the rest of the pattern after each). -/
def unitAltsAt (alts : List String) (cs : List Char) : Option Nat :=
  match alts with
  | [] => none
  | a :: rest =>
    if a.data.isPrefixOf cs ∧ nextNonWord (cs.drop a.length) then some a.length
    else unitAltsAt rest cs

/-- Matcher for `\b\d+(?:\.\d+)?\s*(?:alts)\b` (the first three
`measurement_patterns`).  Dropping the optional fraction can never rescue a
failed alternative (the units start with letters, never with a dot), so the
greedy parse is exact. -/
def measQtyUnitAt (alts : List String) (prev : Option Char) (cs : List Char) : Option Nat :=
  if !(prevNonWord prev) then none
  else
    let (d, r1) := digitRun cs
    if d = 0 then none else
    let (f, r2) := match fracPart r1 with
      | some (n, r) => (n, r)
      | none => (0, r1)
    let w := (r2.takeWhile isWs).length
    let r3 := r2.dropWhile isWs
    match unitAltsAt alts r3 with
    | some u => some (d + f + w + u)
    | none => none

/-- The pound sign, U+00A3. -/
def poundChar : Char := Char.ofNat 163

/-- Matcher for `\b\d+\s*for\s*£?\d+(?:\.\d+)?\b` ("3 for £5").  When the
trailing `\b` fails after the fraction, the engine backtracks to the
digits-only match, whose boundary at the dot always holds. -/
def forPriceAt (prev : Option Char) (cs : List Char) : Option Nat :=
  if !(prevNonWord prev) then none
  else
    let (d, r1) := digitRun cs
    if d = 0 then none else
    let w1 := (r1.takeWhile isWs).length
    let r2 := r1.dropWhile isWs
    if ("for".data).isPrefixOf r2 then
      let r3 := r2.drop 3
      let w2 := (r3.takeWhile isWs).length
      let r4 := r3.dropWhile isWs
      let (p, r5) := match r4 with
        | c :: rest => if c = poundChar then (1, rest) else (0, r4)
        | [] => (0, r4)
      let (d2, r6) := digitRun r5
      if d2 = 0 then none else
      match fracPart r6 with
      | some (f2, r7) =>
        if nextNonWord r7 then some (d + w1 + 3 + w2 + p + d2 + f2)
        else some (d + w1 + 3 + w2 + p + d2)
      | none =>
        if nextNonWord r6 then some (d + w1 + 3 + w2 + p + d2)
        else none
    else none

/-- Matcher for `\b£?\d+(?:\.\d+)?\s*each\b` ("£2 each").  The leading `\b`
is evaluated between the previous character and the first character of the
candidate match; the pound sign is not a word character, so a match starting
at `£` needs a word character before it. -/
def eachPriceAt (prev : Option Char) (cs : List Char) : Option Nat :=
  match cs with
  | [] => none
  | c :: _ =>
    let wp := match prev with
      | none => false
      | some p => isWordChar p
    if wp = isWordChar c then none else
    let (p, r1) := match cs with
      | c0 :: rest => if c0 = poundChar then (1, rest) else (0, cs)
      | [] => (0, cs)
    let (d, r2) := digitRun r1
    if d = 0 then none else
    let (f, r3) := match fracPart r2 with
      | some (n, r) => (n, r)
      | none => (0, r2)
    let w := (r3.takeWhile isWs).length
    let r4 := r3.dropWhile isWs
    if ("each".data).isPrefixOf r4 ∧ nextNonWord (r4.drop 4) then some (p + d + f + w + 4)
    else none

/-- Matcher for `\bper\s+\w+\b` ("per kg").  The trailing `\b` always holds
after the greedy `\w+` run. -/
def perWordAt (prev : Option Char) (cs : List Char) : Option Nat :=
  if !(prevNonWord prev) then none
  else if ("per".data).isPrefixOf cs then
    let r1 := cs.drop 3
    let w := (r1.takeWhile isWs).length
    if w = 0 then none else
    let r2 := r1.dropWhile isWs
    let d := (r2.takeWhile isWordChar).length
    if d = 0 then none else some (3 + w + d)
  else none

/-- Matcher for the standalone-number pattern `\b\d+(?:\.\d+)?\b`.  When
the boundary after the fraction fails the engine backtracks to the
digits-only match (bounded by the dot). -/
def bareNumberAt (prev : Option Char) (cs : List Char) : Option Nat :=
  if !(prevNonWord prev) then none
  else
    let (d, r1) := digitRun cs
    if d = 0 then none else
    match fracPart r1 with
    | some (f, r2) =>
      if nextNonWord r2 then some (d + f) else some d
    | none =>
      if nextNonWord r1 then some d else none

/-- Worker for `reSub`, structurally recursive on a fuel that starts at
the text length (each step consumes at least one character). -/
def reSubAux (m : Option Char → List Char → Option Nat) :
    Nat → Option Char → List Char → List Char
  | _, _, [] => []
  | 0, _, cs => cs
  | fuel + 1, prev, c :: cs =>
    match m prev (c :: cs) with
    | some (l + 1) =>
      ' ' :: reSubAux m fuel (((c :: cs).take (l + 1)).getLast?) ((c :: cs).drop (l + 1))
    | _ => c :: reSubAux m fuel (some c) cs

/-- One `re.sub(pattern, " ", text)` pass: scan left to right with the
previous original character as boundary context, replace each match by a
single space and resume after it. -/
def reSub (m : Option Char → List Char → Option Nat) (prev : Option Char)
    (cs : List Char) : List Char :=
  reSubAux m cs.length prev cs

/-- Alternatives of the first measurement pattern
`(?:kg|g|lb|lbs|oz|ounces?)`, with the optional-`s` group expanded in the
engine's greedy order. -/
def weightMeasAlts : List String := ["kg", "g", "lb", "lbs", "oz", "ounces", "ounce"]

/-- Alternatives of `(?:l|ml|pint|pints|litre|litres?)`. -/
def volumeMeasAlts : List String := ["l", "ml", "pint", "pints", "litre", "litres"]

/-- Alternatives of `(?:pack|packs|x|count|ct)`. -/
def packMeasAlts : List String := ["pack", "packs", "x", "count", "ct"]

/-- `TextNormalizer._remove_measurements`: the six listed patterns in
order, then the standalone-number removal.  The `re.IGNORECASE` flag is
immaterial here because every reachable input has already been lowercased
by `_basic_clean`. -/
def remove_measurements (text : String) : String :=
  let t := reSub (measQtyUnitAt weightMeasAlts) none text.data
  let t := reSub (measQtyUnitAt volumeMeasAlts) none t
  let t := reSub (measQtyUnitAt packMeasAlts) none t
  let t := reSub forPriceAt none t
  let t := reSub eachPriceAt none t
  let t := reSub perWordAt none t
  let t := reSub bareNumberAt none t
  String.mk t

/-- `TextNormalizer._singularize`: words of length at most three are kept;
otherwise the first suffix pattern that matches rewrites the suffix. -/
def singularizeWord (w : String) : String :=
  if w.length ≤ 3 then w
  else
    match plural_patterns.find? (fun p => p.1.data.isSuffixOf w.data) with
    | some p => String.mk (w.data.take (w.data.length - p.1.data.length) ++ p.2.data)
    | none => w

/-- `TextNormalizer._normalize_plurals`. -/
def normalize_plurals (text : String) : String :=
  joinSpace ((splitWs text).map singularizeWord)

/-- Stop words dropped by `_final_cleanup`. -/
def stop_words : List String :=
  ["the", "a", "an", "of", "in", "on", "at", "to", "for", "with", "and", "or"]

/-- `TextNormalizer._final_cleanup`: collapse whitespace, drop
single-character words, drop stop words. -/
def final_cleanup (text : String) : String :=
  let t := collapseWs text.data
  let ws := splitWs (String.mk t)
  let ws := ws.filter (fun w => w.length > 1)
  let ws := ws.filter (fun w => !(stop_words.contains w))
  joinSpace ws

/-- `TextNormalizer.normalize`: the full pipeline.  Python treats only the
empty string as falsy here. -/
def normalize (text : String) : String :=
  if text = "" then ""
  else
    let n := basic_clean text
    let n := remove_brands n
    let n := remove_marketing_words n
    let n := remove_measurements n
    let n := normalize_plurals n
    let n := final_cleanup n
    stripStr n

/-- The ordered `uk_us_variations` table of `get_synonyms` (Python dicts
iterate in insertion order). -/
def uk_us_variations : List (String × List String) :=
  [("courgette", ["zucchini"]), ("aubergine", ["eggplant"]),
   ("mange tout", ["snow peas", "snap peas"]), ("rocket", ["arugula"]),
   ("coriander", ["cilantro"]), ("spring onion", ["scallion", "green onion"]),
   ("swede", ["rutabaga"]), ("turnip", ["neep"])]

/-- `TextNormalizer.get_synonyms`, before the final `list(set(...))`.  The
set conversion deduplicates with unspecified order; every consumer in the
source folds a maximum over the elements, which neither duplicates nor
order affect, so the generation-order list is the faithful model. -/
def get_synonyms (text : String) : List String :=
  uk_us_variations.foldl (fun acc p =>
    let acc := if containsSub p.1.data text.data then
        acc ++ p.2.map (fun us => String.mk (replaceAll p.1.data us.data text.data))
      else acc
    acc ++ (p.2.filter (fun us => containsSub us.data text.data)).map
      (fun us => String.mk (replaceAll us.data p.1.data text.data))) [text]

/-! ## UnitConverter (app/services/unit_converter.py)

Only the members used by the matching pipeline and the claims are
embedded: `_get_unit_type`, `are_units_compatible` and
`parse_quantity_unit`.  The `conversions` dict iterates in insertion
order: weight, volume, count. -/

/-- Names of the `weight` conversion family. -/
def weightNames : List String :=
  ["kg", "kilogram", "kilograms", "g", "gram", "grams", "lb", "lbs",
   "pound", "pounds", "oz", "ounce", "ounces", "stone", "stones"]

/-- Names of the `volume` conversion family. -/
def volumeNames : List String :=
  ["l", "litre", "litres", "liter", "liters", "ml", "millilitre",
   "millilitres", "milliliter", "milliliters", "pint", "pints", "pt",
   "fl oz", "floz", "fluid ounce", "fluid ounces", "gallon", "gallons",
   "gal", "cup", "cups"]

/-- Names of the `count` conversion family. -/
def countNames : List String :=
  ["pack", "packs", "packet", "packets", "box", "boxes", "tin", "tins",
   "can", "cans", "bottle", "bottles", "jar", "jars", "bag", "bags",
   "piece", "pieces", "item", "items", "unit", "units", "each"]

/-- `UnitConverter._get_unit_type`: `None` for a falsy unit, otherwise the
first family containing the lowercased, stripped name. -/
def getUnitType (unit : String) : Option String :=
  if unit = "" then none
  else
    let ul := stripStr (String.mk (unit.data.map lowerChar))
    if weightNames.contains ul then some "weight"
    else if volumeNames.contains ul then some "volume"
    else if countNames.contains ul then some "count"
    else none

/-- `UnitConverter.are_units_compatible`: same known family on both sides. -/
def are_units_compatible (u1 u2 : String) : Bool :=
  match getUnitType u1, getUnitType u2 with
  | some t1, some t2 => t1 = t2
  | _, _ => false

/-- Leading digit run as characters, plus the remainder. -/
def digitChars (cs : List Char) : List Char × List Char :=
  (cs.takeWhile Char.isDigit, cs.dropWhile Char.isDigit)

/-- Optional fraction `(?:\.\d+)` keeping the fraction digits. -/
def fracChars (cs : List Char) : Option (List Char × List Char) :=
  match cs with
  | '.' :: rest =>
    let (ds, r) := digitChars rest
    if ds = [] then none else some (ds, r)
  | _ => none

/-- Numeric value of a digit string. -/
def digitsToNat (ds : List Char) : Nat :=
  ds.foldl (fun n c => 10 * n + (c.toNat - 48)) 0

/-- Python `float(...)` applied to the matched digit groups. -/
def parseFloatQ (intDs fracDs : List Char) : ℚ :=
  if fracDs = [] then (digitsToNat intDs : ℚ)
  else (digitsToNat intDs : ℚ) + (digitsToNat fracDs : ℚ) / ((10 : ℚ) ^ fracDs.length)

/-- `re.search`: try the match at every position left to right (the empty
suffix included; all our patterns need at least one digit there and fail). -/
def reFirst {α : Type} (m : List Char → Option α) : List Char → Option α
  | [] => m []
  | c :: cs =>
    match m (c :: cs) with
    | some r => some r
    | none => reFirst m cs

/-- First alternative that is a prefix of the text (regex alternation with
nothing after it: no boundary check, first listed prefix wins). -/
def altPrefixAt (alts : List String) (cs : List Char) : Option String :=
  alts.find? (fun a => a.data.isPrefixOf cs)

/-- Alternatives of the first `quantity_patterns` entry
`(kg|g|lb|lbs|oz|l|ml|pint|pints|litre|litres)`. -/
def qtyUnitAlts1 : List String :=
  ["kg", "g", "lb", "lbs", "oz", "l", "ml", "pint", "pints", "litre", "litres"]

/-- Alternatives of the second entry
`(pack|packs|bottle|bottles|tin|tins|can|cans)`. -/
def qtyUnitAlts2 : List String :=
  ["pack", "packs", "bottle", "bottles", "tin", "tins", "can", "cans"]

/-- Alternatives of the trailing group of the composite third entry. -/
def qtyUnitAlts3 : List String := ["g", "ml", "oz"]

/-- Matcher for `(\d+(?:\.\d+)?)\s*(alts)` anchored at the current
position.  No word boundaries appear in these patterns, so a bare prefix
of the remainder matches. -/
def qtyUnitMatch (alts : List String) (cs : List Char) : Option (ℚ × String) :=
  let (ds, r1) := digitChars cs
  if ds = [] then none else
  let (fs, r2) := match fracChars r1 with
    | some (fs, r) => (fs, r)
    | none => ([], r1)
  let r3 := r2.dropWhile isWs
  match altPrefixAt alts r3 with
  | some a => some (parseFloatQ ds fs, a)
  | none => none

/-- Matcher for the composite pattern
`(\d+(?:\.\d+)?)\s*x\s*(\d+(?:\.\d+)?)\s*(g|ml|oz)`; the source multiplies
the two numbers. -/
def qtyCompositeMatch (cs : List Char) : Option (ℚ × String) :=
  let (ds1, r1) := digitChars cs
  if ds1 = [] then none else
  let (fs1, r2) := match fracChars r1 with
    | some (fs, r) => (fs, r)
    | none => ([], r1)
  let r3 := r2.dropWhile isWs
  match r3 with
  | 'x' :: r4 =>
    let r5 := r4.dropWhile isWs
    let (ds2, r6) := digitChars r5
    if ds2 = [] then none else
    let (fs2, r7) := match fracChars r6 with
      | some (fs, r) => (fs, r)
      | none => ([], r6)
    let r8 := r7.dropWhile isWs
    match altPrefixAt qtyUnitAlts3 r8 with
    | some a => some (parseFloatQ ds1 fs1 * parseFloatQ ds2 fs2, a)
    | none => none
  | _ => none

/-- `UnitConverter.parse_quantity_unit`: the three `quantity_patterns` are
tried in listed order, each by `re.search` over the whole lowercased text;
the fallback is `(1.0, "unit")`. -/
def parse_quantity_unit (text : String) : ℚ × String :=
  let t := (stripStr text).data.map lowerChar
  match reFirst (qtyUnitMatch qtyUnitAlts1) t with
  | some r => r
  | none =>
    match reFirst (qtyUnitMatch qtyUnitAlts2) t with
    | some r => r
    | none =>
      match reFirst qtyCompositeMatch t with
      | some r => r
      | none => (1, "unit")

/-! ## Fuzzy similarity (rapidfuzz `fuzz.ratio`)

`fuzz.ratio` is the normalized InDel similarity:
`100 * (1 - dist / (len1 + len2))` where the InDel distance equals
`len1 + len2 - 2 * lcs`.  Every call site of the source divides the result
by `100.0`, so the embedding returns the already-normalized score
`2 * lcs / (len1 + len2)`; two empty strings score `1` (rapidfuzz returns
`100.0` for them). -/

/-- Worker for `lcs`, structurally recursive on a fuel that starts at the
sum of the lengths (each recursive call shortens one of the lists, so the
fuel never runs out). -/
def lcsAux : Nat → List Char → List Char → Nat
  | _, [], _ => 0
  | _, _, [] => 0
  | 0, _, _ => 0
  | fuel + 1, a :: as, b :: bs =>
    if a = b then lcsAux fuel as bs + 1
    else max (lcsAux fuel (a :: as) bs) (lcsAux fuel as (b :: bs))

/-- Length of a longest common subsequence. -/
def lcs (a b : List Char) : Nat := lcsAux (a.length + b.length) a b

/-- `fuzz.ratio(a, b) / 100.0`. -/
def fuzzScore (a b : String) : ℚ :=
  if a.data.length + b.data.length = 0 then 1
  else (2 * lcs a.data b.data : ℚ) / ((a.data.length : ℚ) + (b.data.length : ℚ))

/-! ## AdvancedMatchingService (app/services/advanced_matching_service.py)

Database rows are modelled as records and the two Gemini calls as the
outcome data they can produce.  `GeminiService.embed_texts` returns either
`None` (any error) or one vector per input text; the blend then uses
`cosine_similarity(qvec, vec)`, whose value `dot/(‖a‖‖b‖)` is irrational
in general, so the model carries the pre-clamp ratio per ingredient as an
oracle rational (`none` standing for a missing or empty vector, which the
`if vec:` test skips) and applies the source's final clamp
`max(0.0, min(1.0, ...))` explicitly. -/

/-- Row of `recipe_ingredients`. -/
structure RecipeIngredientM where
  id : Nat
  recipe_id : Nat
  name : String
  qty : ℚ
  unit : String
deriving Repr, DecidableEq

/-- Row of `receipt_lines` (fields used by matching). -/
structure ReceiptLineM where
  id : Nat
  raw_text : String
  qty : Option ℚ
  unit : Option String
  line_price : Option ℚ
deriving Repr, DecidableEq

/-- The `MatchResult` dataclass; the API dict emitted by
`find_matches_for_receipt_line` carries exactly these fields. -/
structure MatchResult where
  recipe_ingredient_id : Nat
  ingredient_name : String
  confidence : ℚ
  suggested_qty_consumed : ℚ
  suggested_price : ℚ
  match_reason : String
  unit_compatible : Bool
deriving Repr, DecidableEq

/-- Row of `user_match_confirmations` (fields used by the learning boost). -/
structure ConfirmationM where
  normalized_text : String
  ingredient_id : Nat
  was_correct : Bool
deriving Repr, DecidableEq

/-- The database state read by the matching pipeline: the ingredient
catalog, the existing planning week ids, the `week_recipes` rows as
`(planning_week_id, recipe_id)` pairs and the confirmation log. -/
structure DbModel where
  ingredients : List RecipeIngredientM
  weeks : List Nat
  weekRecipes : List (Nat × Nat)
  confirmations : List ConfirmationM
deriving Repr

/-- Outcomes of the two Gemini calls made during one matching request:
whether the API key is configured, what `normalize_text` returned, and the
per-ingredient embedding-similarity oracle described above (`none` for a
failed `embed_texts` call). -/
structure GeminiModel where
  enabled : Bool
  normText : Option String
  embedSims : Option (List (Option ℚ))
deriving Repr

/-- Python truthiness chain `opt or dflt` for floats: `None` and `0.0` both
fall through to the default. -/
def orQ (a : Option ℚ) (dflt : ℚ) : ℚ :=
  match a with
  | some x => if x = 0 then dflt else x
  | none => dflt

/-- Python `opt or dflt` for strings: `None` and `""` fall through. -/
def orStr (a : Option String) (dflt : String) : String :=
  match a with
  | some s => if s = "" then dflt else s
  | none => dflt

/-- `self.exact_threshold` (0.90). -/
def exact_threshold : ℚ := 90 / 100

/-- `self.high_confidence_threshold` (0.85). -/
def high_confidence_threshold : ℚ := 85 / 100

/-- `self.medium_confidence_threshold` (0.60). -/
def medium_confidence_threshold : ℚ := 60 / 100

/-- `self.min_threshold` (0.50). -/
def min_threshold : ℚ := 50 / 100

/-- `AdvancedMatchingService._create_match_result`: parse the quantity and
unit out of the raw line text, check unit compatibility against the
ingredient's unit, multiply the confidence by 0.8 when incompatible, and
default the suggested quantity through the falsy chain
`receipt_line.qty or receipt_qty or 1.0`. -/
def create_match_result (ing : RecipeIngredientM) (confidence : ℚ) (line : ReceiptLineM)
    (reason : String) : MatchResult :=
  let rq := parse_quantity_unit line.raw_text
  let unit_compatible := are_units_compatible rq.2 ing.unit
  let adjusted := if unit_compatible then confidence else confidence * (8 / 10)
  let suggested_qty := orQ line.qty (if rq.1 = 0 then 1 else rq.1)
  { recipe_ingredient_id := ing.id
    ingredient_name := ing.name
    confidence := adjusted
    suggested_qty_consumed := suggested_qty
    suggested_price := orQ line.line_price 0
    match_reason := reason
    unit_compatible := unit_compatible }

/-- `AdvancedMatchingService._get_fuzzy_reason`. -/
def get_fuzzy_reason (score : ℚ) : String :=
  if exact_threshold ≤ score then "Near exact match"
  else if high_confidence_threshold ≤ score then "High confidence fuzzy match"
  else if medium_confidence_threshold ≤ score then "Medium confidence fuzzy match"
  else "Low confidence fuzzy match"

/-- `AdvancedMatchingService._partial_word_match`: Jaccard similarity of
the word sets (duplicates collapse; only the set sizes matter). -/
def partialWordScore (t1 t2 : String) : ℚ :=
  let w1 := (splitWs t1).dedup
  let w2 := (splitWs t2).dedup
  if w1 = [] ∨ w2 = [] then 0
  else
    let inter := (w1.filter (fun w => w2.contains w)).length
    let union := (w1 ++ w2.filter (fun w => !(w1.contains w))).length
    if 0 < union then (inter : ℚ) / (union : ℚ) else 0

/-- `AdvancedMatchingService._synonym_match`: best pairwise fuzzy score
over the synonym expansions of both sides, starting from `0.0`. -/
def synonymScore (t1 t2 : String) : ℚ :=
  (get_synonyms t1).foldl (fun best s1 =>
    (get_synonyms t2).foldl (fun b s2 => max b (fuzzScore s1 s2)) best) 0

/-- Descending-by-confidence comparison used for `matches.sort(key=...,
reverse=True)`.  Python's sort is stable; a stable insertion sort with
this total preorder produces the same list. -/
def confGE (a b : MatchResult) : Prop := b.confidence ≤ a.confidence

instance : DecidableRel confGE := fun a b => Rat.instDecidableLe b.confidence a.confidence

instance : IsTotal MatchResult confGE := ⟨fun a b => le_total b.confidence a.confidence⟩

instance : IsTrans MatchResult confGE := ⟨fun _ _ _ h1 h2 => le_trans h2 h1⟩

/-- `AdvancedMatchingService._multi_stage_matching`: per ingredient the
first stage that fires contributes the candidate; the list is then sorted
by confidence, descending. -/
def multi_stage_matching (normalized_text : String) (ingredients : List RecipeIngredientM)
    (line : ReceiptLineM) : List MatchResult :=
  let ms := ingredients.filterMap (fun ing =>
    let ni := normalize ing.name
    if normalized_text = ni then
      some (create_match_result ing 1 line "Exact normalized match")
    else
      let fs := fuzzScore normalized_text ni
      if min_threshold ≤ fs then
        some (create_match_result ing fs line (get_fuzzy_reason fs))
      else
        let ps := partialWordScore normalized_text ni
        if min_threshold ≤ ps then
          some (create_match_result ing ps line "Partial word match")
        else
          let ss := synonymScore normalized_text ni
          if min_threshold ≤ ss then
            some (create_match_result ing ss line "Synonym match")
          else none)
  List.insertionSort confGE ms

/-- Final clamp of `gemini_service.cosine_similarity`:
`max(0.0, min(1.0, dot / (na * nb)))`. -/
def cosineClamp (x : ℚ) : ℚ := max 0 (min 1 x)

/-- The embedding blend inside `find_matches_for_receipt_line`: applied
only when `embed_texts` returned one vector per text; the `by_id` dict
keeps the last vector for a duplicated ingredient id, and candidates whose
vector is missing or empty are left untouched.  `alpha = 0.7`. -/
def blendEmbedding (sims : Option (List (Option ℚ))) (ingredients : List RecipeIngredientM)
    (ms : List MatchResult) : List MatchResult :=
  match sims with
  | none => ms
  | some vs =>
    if vs.length = ingredients.length then
      let byId := ingredients.zip vs
      ms.map (fun m =>
        match (byId.reverse.find? (fun p => p.1.id = m.recipe_ingredient_id)) with
        | some (_, some raw) =>
          { m with confidence := min 1 ((7 / 10) * cosineClamp raw + (1 - 7 / 10) * m.confidence) }
        | _ => m)
    else ms

/-- `AdvancedMatchingService._apply_context_boost`: a 1.2× boost, capped at
1.0, for ingredients referenced by a recipe planned in the given week; a
missing week leaves the list untouched. -/
def apply_context_boost (db : DbModel) (ms : List MatchResult) (week_id : Nat) : List MatchResult :=
  if !(db.weeks.contains week_id) then ms
  else
    let weekIngIds := (db.ingredients.filter (fun ing =>
      db.weekRecipes.any (fun wr => wr.1 = week_id ∧ wr.2 = ing.recipe_id))).map (·.id)
    ms.map (fun m =>
      if weekIngIds.contains m.recipe_ingredient_id then
        { m with confidence := min 1 (m.confidence * (12 / 10)),
                 match_reason := m.match_reason ++ " (planned this week)" }
      else m)

/-- `AdvancedMatchingService._apply_learning_boost`: a 1.15× boost, capped
at 1.0, for ingredients previously confirmed for the same normalized text. -/
def apply_learning_boost (db : DbModel) (ms : List MatchResult) (normalized_text : String) :
    List MatchResult :=
  let confirmedIds := (db.confirmations.filter (fun c =>
    c.normalized_text = normalized_text ∧ c.was_correct)).map (·.ingredient_id)
  ms.map (fun m =>
    if confirmedIds.contains m.recipe_ingredient_id then
      { m with confidence := min 1 (m.confidence * (115 / 100)),
               match_reason := m.match_reason ++ " (previously confirmed)" }
    else m)

/-- The Gemini rewrite step `normalized_candidate = gem_norm or
normalized_text` (empty strings are falsy). -/
def normalizedCandidate (g : GeminiModel) (normalized_text : String) : String :=
  match g.normText with
  | some s => if s = "" then normalized_text else s
  | none => normalized_text

/-- `AdvancedMatchingService.find_matches_for_receipt_line`: raises
`RuntimeError` when Gemini is not configured, returns `[]` for an empty
catalog, otherwise normalization, multi-stage matching, the embedding
blend (silently skipped on failure by the `try/except: pass`), both
boosts, and the top-5 cut. -/
def find_matches_for_receipt_line (db : DbModel) (g : GeminiModel) (line : ReceiptLineM)
    (week_id : Nat) : Except String (List MatchResult) :=
  if !g.enabled then .error "Gemini AI is required for matching but is not configured"
  else if db.ingredients.isEmpty then .ok []
  else
    let normalized_text := normalize line.raw_text
    let ms := multi_stage_matching (normalizedCandidate g normalized_text) db.ingredients line
    let ms := blendEmbedding g.embedSims db.ingredients ms
    let ms := apply_context_boost db ms week_id
    let ms := apply_learning_boost db ms normalized_text
    .ok (ms.take 5)

/-- Row of `line_matches` (the persisted `ConfirmedMatch`). -/
structure LineMatchM where
  receipt_line_id : Nat
  recipe_ingredient_id : Nat
  confidence : ℚ
  qty_purchased : ℚ
  qty_consumed : ℚ
  unit : String
  price_allocated : ℚ
deriving Repr, DecidableEq

/-- `AdvancedMatchingService.auto_match_high_confidence`: run the pipeline
and, when the best candidate clears `exact_threshold`, insert a new
`LineMatch` row — with no check for an already existing row.  The store of
`line_matches` rows is threaded explicitly. -/
def auto_match_high_confidence (db : DbModel) (g : GeminiModel) (line : ReceiptLineM)
    (week_id : Nat) (store : List LineMatchM) :
    Except String (Option LineMatchM × List LineMatchM) :=
  match find_matches_for_receipt_line db g line week_id with
  | .error e => .error e
  | .ok [] => .ok (none, store)
  | .ok (best :: _) =>
    if exact_threshold ≤ best.confidence then
      let lm : LineMatchM :=
        { receipt_line_id := line.id
          recipe_ingredient_id := best.recipe_ingredient_id
          confidence := best.confidence
          qty_purchased := orQ line.qty 1
          qty_consumed := best.suggested_qty_consumed
          unit := orStr line.unit "unit"
          price_allocated := best.suggested_price }
      .ok (some lm, store ++ [lm])
    else .ok (none, store)

/-- The auto-match call made by `get_receipt_pending_matches` in
app/api/v1/receipts.py: a line is only handed to auto-match when it has no
`line_matches` row (`~ReceiptLine.line_matches.any()`), and exceptions are
swallowed by the `try/except: continue`. -/
def endpoint_auto_match (db : DbModel) (g : GeminiModel) (week_id : Nat)
    (store : List LineMatchM) (line : ReceiptLineM) : List LineMatchM :=
  if store.any (fun lm => lm.receipt_line_id = line.id) then store
  else
    match auto_match_high_confidence db g line week_id store with
    | .ok (_, store2) => store2
    | .error _ => store

/-! ## Settlement close (app/api/v1/settlements.py, `close_week_settlement`)

The endpoint's access checks and the time-window query are outside the
model; the member rows and the receipts that the queries return are the
model's inputs.  The primary key of `household_users` is
`(household_id, user_id)`, so the member list carries distinct user ids
and the Python dicts keyed by user id iterate exactly over it. -/

/-- Row of `household_users` (fields used by settlement). -/
structure HouseholdUserM where
  user_id : Nat
  share_default : Option ℚ
deriving Repr, DecidableEq

/-- One receipt of the week with the `line_price` of each of its lines. -/
structure ReceiptRowM where
  payer_id : Nat
  line_prices : List (Option ℚ)
deriving Repr, DecidableEq

/-- Row of `settlements`. -/
structure SettlementM where
  planning_week_id : Nat
  payer_id : Nat
  payee_id : Nat
  amount : ℚ
deriving Repr, DecidableEq

/-- The settlement epsilon `0.005` used for both partitioning and pointer
advancement. -/
def settleEps : ℚ := 5 / 1000

/-- Sum of a receipt's line prices (`line.line_price or 0.0`). -/
def receiptTotal (r : ReceiptRowM) : ℚ :=
  (r.line_prices.map (fun p => p.getD 0)).sum

/-- `total_spend`: receipts whose line-price sum is not positive are
skipped (`if receipt_total <= 0.0: continue`). -/
def totalSpend (rs : List ReceiptRowM) : ℚ :=
  (((rs.map receiptTotal).filter (fun t => 0 < t))).sum

/-- `paid_by[uid]`: the kept receipt totals of the receipts paid by `uid`. -/
def paidBy (rs : List ReceiptRowM) (uid : Nat) : ℚ :=
  ((((rs.filter (fun r => r.payer_id = uid)).map receiptTotal).filter (fun t => 0 < t))).sum

/-- A member's weight `m.share_default or 1.0` (`None` and `0.0` default). -/
def weightOf (m : HouseholdUserM) : ℚ := orQ m.share_default 1

/-- `total_weight = sum(weights.values()) or 1.0`. -/
def totalWeight (members : List HouseholdUserM) : ℚ :=
  let s := (members.map weightOf).sum
  if s = 0 then 1 else s

/-- `deltas[uid] = paid_by[uid] - total_spend * (weights[uid] / total_weight)`. -/
def deltaOf (members : List HouseholdUserM) (rs : List ReceiptRowM) (m : HouseholdUserM) : ℚ :=
  paidBy rs m.user_id - totalSpend rs * (weightOf m / totalWeight members)

/-- Stable descending sort on the second component, matching
`list.sort(key=lambda x: x[1], reverse=True)`. -/
def amountGE (a b : Nat × ℚ) : Prop := b.2 ≤ a.2

instance : DecidableRel amountGE := fun a b => Rat.instDecidableLe b.2 a.2

instance : IsTotal (Nat × ℚ) amountGE := ⟨fun a b => le_total b.2 a.2⟩

instance : IsTrans (Nat × ℚ) amountGE := ⟨fun _ _ _ h1 h2 => le_trans h2 h1⟩

/-- `creditors`: members whose delta exceeds epsilon, sorted descending by
delta. -/
def creditorsOf (members : List HouseholdUserM) (rs : List ReceiptRowM) : List (Nat × ℚ) :=
  List.insertionSort amountGE
    ((members.map (fun m => (m.user_id, deltaOf members rs m))).filter
      (fun p => settleEps < p.2))

/-- `debtors`: members whose delta is below minus epsilon, listed with the
negated (positive) amount owed, sorted descending. -/
def debtorsOf (members : List HouseholdUserM) (rs : List ReceiptRowM) : List (Nat × ℚ) :=
  List.insertionSort amountGE
    (((members.map (fun m => (m.user_id, deltaOf members rs m))).filter
      (fun p => p.2 < -settleEps)).map (fun p => (p.1, -p.2)))

/-- Round-half-to-even to an integer, the behaviour of Python's `round`. -/
def roundHalfEven (x : ℚ) : ℤ :=
  let f := ⌊x⌋
  let r := x - f
  if r < 1 / 2 then f
  else if 1 / 2 < r then f + 1
  else if Even f then f else f + 1

/-- `round(pay, 2)`: round-half-even at two decimal places. -/
def round2 (x : ℚ) : ℚ := (roundHalfEven (100 * x) : ℚ) / 100

/-- The greedy two-pointer settlement loop of `close_week_settlement`
(lines 146–169).  The source advances indices `i`/`j` past settled
entries and mutates the amount at the current index; entries behind an
advanced pointer are never read again, so consuming the lists models the
loop exactly.  A transfer row is added only when `pay > 0.0`, and a
pointer advances when its remainder falls to at most epsilon. -/
def settleLoop (week_id : Nat) : List (Nat × ℚ) → List (Nat × ℚ) → List SettlementM
  | [], _ => []
  | _, [] => []
  | (d, owe) :: ds, (c, owed) :: cs =>
    let pay := min owe owed
    let row : List SettlementM :=
      if 0 < pay then [⟨week_id, d, c, round2 pay⟩] else []
    let owe2 := owe - pay
    let owed2 := owed - pay
    row ++ settleLoop week_id
      (if owe2 ≤ settleEps then ds else (d, owe2) :: ds)
      (if owed2 ≤ settleEps then cs else (c, owed2) :: cs)
  termination_by ds cs => ds.length + cs.length
  decreasing_by
    rcases le_total owe owed with h | h
    · have h0 : owe - min owe owed ≤ settleEps := by
        rw [min_eq_left h, sub_self]
        norm_num [settleEps]
      rw [dif_pos h0]
      split <;> simp <;> omega
    · have h0 : owed - min owe owed ≤ settleEps := by
        rw [min_eq_right h, sub_self]
        norm_num [settleEps]
      rw [dif_pos h0]
      split <;> simp <;> omega

/-- Fuel-indexed version of the loop: `none` when the iteration budget
runs out with work remaining.  Used to state the termination bound. -/
def settleLoopFuel (week_id : Nat) : Nat → List (Nat × ℚ) → List (Nat × ℚ) →
    Option (List SettlementM)
  | _, [], _ => some []
  | _, _, [] => some []
  | 0, _ :: _, _ :: _ => none
  | fuel + 1, (d, owe) :: ds, (c, owed) :: cs =>
    let pay := min owe owed
    let row : List SettlementM :=
      if 0 < pay then [⟨week_id, d, c, round2 pay⟩] else []
    let owe2 := owe - pay
    let owed2 := owed - pay
    (settleLoopFuel week_id fuel
      (if owe2 ≤ settleEps then ds else (d, owe2) :: ds)
      (if owed2 ≤ settleEps then cs else (c, owed2) :: cs)).map (row ++ ·)

/-- Outcome of `close_week_settlement` past the access checks: the
empty-member 400 error, the cleared no-spend result, or the regenerated
transfer set. -/
inductive CloseResult where
  | bad (detail : String)
  | cleared
  | closed (transfers : List SettlementM)
deriving Repr, DecidableEq

/-- `close_week_settlement` (lines 94–173): fail on an empty member list,
clear and return when no receipt has a positive line-price sum, otherwise
compute deltas, partition and sort them, and run the greedy loop. -/
def close_week_settlement (week_id : Nat) (members : List HouseholdUserM)
    (receipts : List ReceiptRowM) : CloseResult :=
  if members.isEmpty then .bad "No household members found"
  else if totalSpend receipts ≤ 0 then .cleared
  else .closed (settleLoop week_id (debtorsOf members receipts) (creditorsOf members receipts))

/-- Net amount a member receives from a transfer set: incoming as payee
minus outgoing as payer. -/
def netOf (ts : List SettlementM) (uid : Nat) : ℚ :=
  ((ts.filter (fun t => t.payee_id = uid)).map (·.amount)).sum -
    ((ts.filter (fun t => t.payer_id = uid)).map (·.amount)).sum

/-! ## Spec-side definition for the embedding-fallback claim

The specification describes the result of the pipeline when the embedding
capability contributes nothing: the candidate list computed from the
lexical stages alone.  This definition follows the spec's words (matching
on the locally normalized text, both boosts, top-5 cap, no Gemini call)
and is compared against `find_matches_for_receipt_line`. -/

/-- The lexical-only candidate list described by the specification. -/
def lexical_only_candidates (db : DbModel) (line : ReceiptLineM) (week_id : Nat) :
    List MatchResult :=
  if db.ingredients.isEmpty then []
  else
    let normalized_text := normalize line.raw_text
    let ms := multi_stage_matching normalized_text db.ingredients line
    let ms := apply_context_boost db ms week_id
    let ms := apply_learning_boost db ms normalized_text
    ms.take 5

/-! ## Concrete fixtures used by counterexamples and witnesses -/

/-- Catalog ingredient "tomato" measured in kilograms. -/
def tomatoKgIng : RecipeIngredientM := ⟨1, 10, "tomato", 2, "kg"⟩

/-- Catalog ingredient "tomato" measured in count units. -/
def tomatoUnitIng : RecipeIngredientM := ⟨1, 10, "tomato", 2, "unit"⟩

/-- Catalog ingredient "tomato sauce" measured in count units. -/
def sauceIng : RecipeIngredientM := ⟨2, 11, "tomato sauce", 1, "unit"⟩

/-- A receipt line reading "tomato" with no quantity or unit fields. -/
def tomatoLine : ReceiptLineM := ⟨7, "tomato", none, none, some (5 / 2)⟩

/-- Database with the kilogram tomato only and no week or learning data. -/
def tomatoDb : DbModel := ⟨[tomatoKgIng], [], [], []⟩

/-- Database with the count-unit tomato only. -/
def tomatoUnitDb : DbModel := ⟨[tomatoUnitIng], [], [], []⟩

/-- Database with both tomato ingredients (for the ordering example). -/
def twoIngDb : DbModel := ⟨[tomatoUnitIng, sauceIng], [], [], []⟩

/-- Gemini configured, with the rewrite returning nothing and the
embedding call failing. -/
def gemOn : GeminiModel := ⟨true, none, none⟩

/-- Gemini not configured. -/
def gemOff : GeminiModel := ⟨false, none, none⟩

/-- Gemini configured; the embedding oracle scores the first catalog
entry 0 and the second 1. -/
def gemSims01 : GeminiModel := ⟨true, none, some [some 0, some 1]⟩

/-- The match result produced for `tomatoLine` against `tomatoKgIng`:
exact text match, penalized to 0.8 by the `unit`-vs-`kg` incompatibility. -/
def tomatoKgMR : MatchResult := ⟨1, "tomato", 4 / 5, 1, 5 / 2, "Exact normalized match", false⟩

/-- The match result for `tomatoLine` against `tomatoUnitIng`: exact
match with compatible units. -/
def tomatoUnitMR : MatchResult := ⟨1, "tomato", 1, 1, 5 / 2, "Exact normalized match", true⟩

/-- The match result for `tomatoLine` against `sauceIng`: fuzzy score
`2·6/18 = 2/3`, compatible units. -/
def sauceMR : MatchResult := ⟨2, "tomato sauce", 2 / 3, 1, 5 / 2, "Medium confidence fuzzy match", true⟩

/-- Four equal-weight members for the settlement counterexamples. -/
def fourMembers : List HouseholdUserM := [⟨11, none⟩, ⟨12, none⟩, ⟨13, none⟩, ⟨14, none⟩]

/-- Member 11 pays a single receipt of 100.016. -/
def receiptsRounding : List ReceiptRowM := [⟨11, [some (100016 / 1000)]⟩]

/-- Receipts realizing deltas (−5, +2, +2, +1): members 12, 13, 14 pay 7, 7
and 6 of a total spend of 20. -/
def receiptsSkewed : List ReceiptRowM := [⟨12, [some 7]⟩, ⟨13, [some 7]⟩, ⟨14, [some 6]⟩]

/-- Two equal-weight members for the amended netting witness. -/
def twoMembers : List HouseholdUserM := [⟨1, none⟩, ⟨2, none⟩]

/-- Member 1 pays a single receipt of 100. -/
def receiptsHundred : List ReceiptRowM := [⟨1, [some 100]⟩]

/-- `tomatoUnitMR` after the embedding blend with oracle similarity 0:
`min 1 (0.7·0 + 0.3·1) = 0.3`. -/
def tomatoBlendMR : MatchResult := ⟨1, "tomato", 3 / 10, 1, 5 / 2, "Exact normalized match", true⟩

/-- `sauceMR` after the embedding blend with oracle similarity 1:
`min 1 (0.7·1 + 0.3·(2/3)) = 0.9`. -/
def sauceBlendMR : MatchResult :=
  ⟨2, "tomato sauce", 9 / 10, 1, 5 / 2, "Medium confidence fuzzy match", true⟩

/-- The `LineMatch` row inserted by auto-match for `tomatoLine` against
`tomatoUnitIng` (confidence 1 clears the 0.90 threshold). -/
def tomatoLM : LineMatchM := ⟨7, 1, 1, 1, 1, "unit", 5 / 2⟩

/-! ## General lemmas about the scoring functions -/

theorem lcsAux_le_left (fuel : Nat) (a b : List Char) : lcsAux fuel a b ≤ a.length := by
  induction fuel generalizing a b with
  | zero => cases a <;> cases b <;> simp [lcsAux]
  | succ n ih =>
    cases a with
    | nil => simp [lcsAux]
    | cons x xs =>
      cases b with
      | nil => simp [lcsAux]
      | cons y ys =>
        simp only [lcsAux, List.length_cons]
        split
        · have := ih xs ys
          omega
        · refine max_le ?_ (le_trans (ih xs (y :: ys)) (Nat.le_succ _))
          simpa using ih (x :: xs) ys

theorem lcsAux_le_right (fuel : Nat) (a b : List Char) : lcsAux fuel a b ≤ b.length := by
  induction fuel generalizing a b with
  | zero => cases a <;> cases b <;> simp [lcsAux]
  | succ n ih =>
    cases a with
    | nil => simp [lcsAux]
    | cons x xs =>
      cases b with
      | nil => simp [lcsAux]
      | cons y ys =>
        simp only [lcsAux, List.length_cons]
        split
        · have := ih xs ys
          omega
        · exact max_le (le_trans (ih (x :: xs) ys) (Nat.le_succ _))
            (by simpa using ih xs (y :: ys))

theorem lcs_le_left (a b : List Char) : lcs a b ≤ a.length := lcsAux_le_left _ a b

theorem lcs_le_right (a b : List Char) : lcs a b ≤ b.length := lcsAux_le_right _ a b

theorem fuzzScore_nonneg (a b : String) : 0 ≤ fuzzScore a b := by
  unfold fuzzScore
  split
  · norm_num
  · positivity

theorem fuzzScore_le_one (a b : String) : fuzzScore a b ≤ 1 := by
  unfold fuzzScore
  split
  · norm_num
  · rename_i hne
    have hpos : (0 : ℚ) < (a.data.length : ℚ) + (b.data.length : ℚ) := by
      have h := Nat.pos_of_ne_zero hne
      exact_mod_cast h
    rw [div_le_one hpos]
    have hnat : 2 * lcs a.data b.data ≤ a.data.length + b.data.length := by
      have h1 := lcs_le_left a.data b.data
      have h2 := lcs_le_right a.data b.data
      omega
    exact_mod_cast hnat

theorem partialWordScore_nonneg (a b : String) : 0 ≤ partialWordScore a b := by
  simp only [partialWordScore]
  split
  · norm_num
  · split
    · positivity
    · norm_num

theorem partialWordScore_le_one (a b : String) : partialWordScore a b ≤ 1 := by
  simp only [partialWordScore]
  split
  · norm_num
  · split
    · rename_i hu
      rw [div_le_one (by exact_mod_cast hu)]
      have hle : ((splitWs a).dedup.filter (fun w => (splitWs b).dedup.contains w)).length ≤
          ((splitWs a).dedup ++ (splitWs b).dedup.filter
            (fun w => !((splitWs a).dedup.contains w))).length := by
        simp only [List.length_append]
        have h := List.length_filter_le (fun w => (splitWs b).dedup.contains w) (splitWs a).dedup
        omega
      exact_mod_cast hle
    · norm_num

theorem le_foldl_max (f : String → ℚ) (l : List String) (acc : ℚ) :
    acc ≤ l.foldl (fun b s => max b (f s)) acc := by
  induction l generalizing acc with
  | nil => simp
  | cons x xs ih => exact le_trans (le_max_left _ _) (ih _)

theorem foldl_max_le_one (f : String → ℚ) (l : List String) (acc : ℚ) (h1 : acc ≤ 1)
    (hf : ∀ s, f s ≤ 1) : l.foldl (fun b s => max b (f s)) acc ≤ 1 := by
  induction l generalizing acc with
  | nil => simpa
  | cons x xs ih => exact ih _ (max_le h1 (hf x))

theorem synonymScore_nonneg (a b : String) : 0 ≤ synonymScore a b := by
  unfold synonymScore
  have hmain : ∀ (l : List String) (acc : ℚ), 0 ≤ acc →
      0 ≤ l.foldl (fun best s1 =>
        (get_synonyms b).foldl (fun c s2 => max c (fuzzScore s1 s2)) best) acc := by
    intro l
    induction l with
    | nil => intro acc h; simpa
    | cons x xs ih =>
      intro acc h
      exact ih _ (le_trans h (le_foldl_max (fuzzScore x) (get_synonyms b) acc))
  exact hmain _ 0 le_rfl

theorem synonymScore_le_one (a b : String) : synonymScore a b ≤ 1 := by
  unfold synonymScore
  have hmain : ∀ (l : List String) (acc : ℚ), acc ≤ 1 →
      l.foldl (fun best s1 =>
        (get_synonyms b).foldl (fun c s2 => max c (fuzzScore s1 s2)) best) acc ≤ 1 := by
    intro l
    induction l with
    | nil => intro acc h; simpa
    | cons x xs ih =>
      intro acc h
      exact ih _ (foldl_max_le_one (fuzzScore x) (get_synonyms b) acc h (fuzzScore_le_one x))
  exact hmain _ 0 (by norm_num)

theorem create_match_result_conf_bounds (ing : RecipeIngredientM) (c : ℚ) (line : ReceiptLineM)
    (r : String) (h0 : 0 ≤ c) (h1 : c ≤ 1) :
    0 ≤ (create_match_result ing c line r).confidence ∧
      (create_match_result ing c line r).confidence ≤ 1 := by
  simp only [create_match_result]
  split
  · exact ⟨h0, h1⟩
  · constructor
    · positivity
    · have h := mul_le_mul_of_nonneg_right h1 (by norm_num : (0 : ℚ) ≤ 8 / 10)
      linarith

theorem multi_stage_conf_bounds (nt : String) (ings : List RecipeIngredientM)
    (line : ReceiptLineM) :
    ∀ m ∈ multi_stage_matching nt ings line, 0 ≤ m.confidence ∧ m.confidence ≤ 1 := by
  intro m hm
  unfold multi_stage_matching at hm
  have hm2 := (List.perm_insertionSort confGE _).subset hm
  obtain ⟨ing, _, heq⟩ := List.mem_filterMap.mp hm2
  dsimp only at heq
  split at heq
  · cases heq
    exact create_match_result_conf_bounds _ _ _ _ (by norm_num) (by norm_num)
  · split at heq
    · cases heq
      exact create_match_result_conf_bounds _ _ _ _ (fuzzScore_nonneg _ _) (fuzzScore_le_one _ _)
    · split at heq
      · cases heq
        exact create_match_result_conf_bounds _ _ _ _ (partialWordScore_nonneg _ _)
          (partialWordScore_le_one _ _)
      · split at heq
        · cases heq
          exact create_match_result_conf_bounds _ _ _ _ (synonymScore_nonneg _ _)
            (synonymScore_le_one _ _)
        · cases heq

theorem cosineClamp_nonneg (x : ℚ) : 0 ≤ cosineClamp x := le_max_left 0 _

theorem cosineClamp_le_one (x : ℚ) : cosineClamp x ≤ 1 :=
  max_le (by norm_num) (min_le_left 1 x)

theorem blendEmbedding_conf_bounds (sims : Option (List (Option ℚ)))
    (ings : List RecipeIngredientM) (ms : List MatchResult)
    (h : ∀ m ∈ ms, 0 ≤ m.confidence ∧ m.confidence ≤ 1) :
    ∀ m ∈ blendEmbedding sims ings ms, 0 ≤ m.confidence ∧ m.confidence ≤ 1 := by
  intro m hm
  unfold blendEmbedding at hm
  match sims with
  | none => exact h m hm
  | some vs =>
    simp only at hm
    split at hm
    · obtain ⟨m0, hm0, heq⟩ := List.mem_map.mp hm
      have hb := h m0 hm0
      split at heq
      · cases heq
        rename_i raw _
        refine ⟨le_min (by norm_num) ?_, min_le_left _ _⟩
        have h1 : 0 ≤ (7 : ℚ) / 10 * cosineClamp raw :=
          mul_nonneg (by norm_num) (cosineClamp_nonneg raw)
        have h2 : 0 ≤ (1 - 7 / 10) * m0.confidence := mul_nonneg (by norm_num) hb.1
        linarith
      · cases heq; exact hb
    · exact h m hm

theorem apply_context_boost_conf_bounds (db : DbModel) (ms : List MatchResult) (week_id : Nat)
    (h : ∀ m ∈ ms, 0 ≤ m.confidence ∧ m.confidence ≤ 1) :
    ∀ m ∈ apply_context_boost db ms week_id, 0 ≤ m.confidence ∧ m.confidence ≤ 1 := by
  intro m hm
  unfold apply_context_boost at hm
  split at hm
  · exact h m hm
  · obtain ⟨m0, hm0, heq⟩ := List.mem_map.mp hm
    have hb := h m0 hm0
    split at heq
    · cases heq
      exact ⟨le_min (by norm_num) (mul_nonneg hb.1 (by norm_num)), min_le_left _ _⟩
    · cases heq; exact hb

theorem apply_learning_boost_conf_bounds (db : DbModel) (ms : List MatchResult) (nt : String)
    (h : ∀ m ∈ ms, 0 ≤ m.confidence ∧ m.confidence ≤ 1) :
    ∀ m ∈ apply_learning_boost db ms nt, 0 ≤ m.confidence ∧ m.confidence ≤ 1 := by
  intro m hm
  unfold apply_learning_boost at hm
  obtain ⟨m0, hm0, heq⟩ := List.mem_map.mp hm
  have hb := h m0 hm0
  split at heq
  · cases heq
    exact ⟨le_min (by norm_num) (mul_nonneg hb.1 (by norm_num)), min_le_left _ _⟩
  · cases heq; exact hb

/-! ## Concrete evaluation lemmas shared by witnesses and counterexamples -/

theorem eval_normalize_tomato : normalize "tomato" = "tomato" := by decide

theorem eval_parse_tomato : parse_quantity_unit "tomato" = (1, "unit") := by decide

theorem eval_units_unit_kg : are_units_compatible "unit" "kg" = false := by decide

theorem eval_units_unit_unit : are_units_compatible "unit" "unit" = true := by decide

theorem eval_multi_kg : multi_stage_matching "tomato" [tomatoKgIng] tomatoLine = [tomatoKgMR] := by
  simp only [multi_stage_matching, tomatoKgIng, tomatoLine, tomatoKgMR,
    List.filterMap_cons, List.filterMap_nil, create_match_result,
    eval_normalize_tomato, eval_parse_tomato, eval_units_unit_kg, orQ]
  norm_num [List.insertionSort, List.orderedInsert]

theorem eval_find_kg : find_matches_for_receipt_line tomatoDb gemOn tomatoLine 1 =
    Except.ok [tomatoKgMR] := by
  simp only [find_matches_for_receipt_line, tomatoDb, gemOn, normalizedCandidate]
  rw [show tomatoLine.raw_text = "tomato" from rfl, eval_normalize_tomato, eval_multi_kg]
  norm_num [blendEmbedding, apply_context_boost, apply_learning_boost]

theorem eval_multi_unit : multi_stage_matching "tomato" [tomatoUnitIng] tomatoLine =
    [tomatoUnitMR] := by
  simp only [multi_stage_matching, tomatoUnitIng, tomatoLine, tomatoUnitMR,
    List.filterMap_cons, List.filterMap_nil, create_match_result,
    eval_normalize_tomato, eval_parse_tomato, eval_units_unit_unit, orQ]
  norm_num [List.insertionSort, List.orderedInsert]

theorem eval_find_unit : find_matches_for_receipt_line tomatoUnitDb gemOn tomatoLine 1 =
    Except.ok [tomatoUnitMR] := by
  simp only [find_matches_for_receipt_line, tomatoUnitDb, gemOn, normalizedCandidate]
  rw [show tomatoLine.raw_text = "tomato" from rfl, eval_normalize_tomato, eval_multi_unit]
  norm_num [blendEmbedding, apply_context_boost, apply_learning_boost]

/-! ## Claim C9 -/

/-- Claim C9: every candidate produced by the matching pipeline — after
the unit-compatibility penalty, the embedding blend and both
multiplicative boosts — has its confidence in the interval [0, 1]. -/
theorem c9_confidences_in_unit_interval (db : DbModel) (g : GeminiModel) (line : ReceiptLineM)
    (week_id : Nat) (ts : List MatchResult)
    (h : find_matches_for_receipt_line db g line week_id = Except.ok ts) :
    ∀ m ∈ ts, 0 ≤ m.confidence ∧ m.confidence ≤ 1 := by
  unfold find_matches_for_receipt_line at h
  split at h
  · cases h
  · split at h
    · cases h
      intro m hm
      simp at hm
    · dsimp only at h
      cases h
      intro m hm
      have hm2 := List.take_subset 5 _ hm
      exact apply_learning_boost_conf_bounds _ _ _
        (apply_context_boost_conf_bounds _ _ _
          (blendEmbedding_conf_bounds _ _ _ (multi_stage_conf_bounds _ _ _))) m hm2

/-- Witness for C9: the concrete tomato catalog and line, whose returned
candidate has confidence 4/5. -/
theorem c9_witness : 0 ≤ tomatoKgMR.confidence ∧ tomatoKgMR.confidence ≤ 1 :=
  c9_confidences_in_unit_interval tomatoDb gemOn tomatoLine 1 [tomatoKgMR] eval_find_kg
    tomatoKgMR (List.mem_singleton.mpr rfl)

/-! ## Claim C10 -/

theorem settleLoopFuel_ge (wid : Nat) :
    ∀ (fuel : Nat) (ds cs : List (Nat × ℚ)), ds.length + cs.length ≤ fuel →
      settleLoopFuel wid fuel ds cs = some (settleLoop wid ds cs) := by
  intro fuel
  induction fuel with
  | zero =>
    intro ds cs h
    cases ds with
    | nil => simp [settleLoopFuel, settleLoop]
    | cons d ds =>
      cases cs with
      | nil => simp [settleLoopFuel, settleLoop]
      | cons c cs => simp at h
  | succ n ih =>
    intro ds cs h
    cases ds with
    | nil => simp [settleLoopFuel, settleLoop]
    | cons d ds =>
      cases cs with
      | nil => simp [settleLoopFuel, settleLoop]
      | cons c cs =>
        obtain ⟨dd, owe⟩ := d
        obtain ⟨cc, owed⟩ := c
        have hle : (if owe - min owe owed ≤ settleEps then ds else
              (dd, owe - min owe owed) :: ds).length +
            (if owed - min owe owed ≤ settleEps then cs else
              (cc, owed - min owe owed) :: cs).length ≤ n := by
          simp only [List.length_cons] at h
          rcases le_total owe owed with hc | hc
          · have hA : owe - min owe owed ≤ settleEps := by
              rw [min_eq_left hc, sub_self]; norm_num [settleEps]
            rw [if_pos hA]
            split <;> (try simp only [List.length_cons]) <;> omega
          · have hB : owed - min owe owed ≤ settleEps := by
              rw [min_eq_right hc, sub_self]; norm_num [settleEps]
            rw [if_pos hB]
            split <;> (try simp only [List.length_cons]) <;> omega
        rw [settleLoopFuel, settleLoop, ih _ _ hle]
        simp

/-- Claim C10: the greedy settlement loop terminates for every pair of
finite debtor and creditor lists, within `#debtors + #creditors`
iterations: the fuel-indexed loop given exactly that budget completes and
agrees with the loop itself. -/
theorem c10_settle_loop_terminates (wid : Nat) (ds cs : List (Nat × ℚ)) :
    settleLoopFuel wid (ds.length + cs.length) ds cs = some (settleLoop wid ds cs) :=
  settleLoopFuel_ge wid _ ds cs le_rfl

/-! ## Claim C7 -/

theorem settle_advance_le (dd cc : Nat) (owe owed : ℚ) (ds cs : List (Nat × ℚ)) :
    (if owe - min owe owed ≤ settleEps then ds else (dd, owe - min owe owed) :: ds).length +
      (if owed - min owe owed ≤ settleEps then cs else (cc, owed - min owe owed) :: cs).length ≤
      ds.length + cs.length + 1 := by
  rcases le_total owe owed with hc | hc
  · have hA : owe - min owe owed ≤ settleEps := by
      rw [min_eq_left hc, sub_self]; norm_num [settleEps]
    rw [if_pos hA]
    split <;> (try simp only [List.length_cons]) <;> omega
  · have hB : owed - min owe owed ≤ settleEps := by
      rw [min_eq_right hc, sub_self]; norm_num [settleEps]
    rw [if_pos hB]
    split <;> (try simp only [List.length_cons]) <;> omega

theorem settleLoop_length_or_fuel (wid : Nat) :
    ∀ (n : Nat) (ds cs : List (Nat × ℚ)), ds.length + cs.length ≤ n →
      settleLoop wid ds cs = [] ∨
        (settleLoop wid ds cs).length + 1 ≤ ds.length + cs.length := by
  intro n
  induction n with
  | zero =>
    intro ds cs h
    cases ds with
    | nil => left; simp [settleLoop]
    | cons d ds =>
      cases cs with
      | nil => left; simp [settleLoop]
      | cons c cs => simp at h
  | succ n ih =>
    intro ds cs h
    cases ds with
    | nil => left; simp [settleLoop]
    | cons d ds =>
      cases cs with
      | nil => left; simp [settleLoop]
      | cons c cs =>
        obtain ⟨dd, owe⟩ := d
        obtain ⟨cc, owed⟩ := c
        rw [settleLoop]
        have hadv := settle_advance_le dd cc owe owed ds cs
        simp only [List.length_cons] at h
        rcases ih (if owe - min owe owed ≤ settleEps then ds else
              (dd, owe - min owe owed) :: ds)
            (if owed - min owe owed ≤ settleEps then cs else
              (cc, owed - min owe owed) :: cs) (by omega) with h0 | h1
        · rw [h0, List.append_nil]
          split
          all_goals first
            | (left; rfl)
            | (right
               simp only [List.length_singleton, List.length_cons, List.length_nil]
               omega)
        · right
          simp only [List.length_append, List.length_cons]
          have hrow : (if 0 < min owe owed then
              [({ planning_week_id := wid, payer_id := dd, payee_id := cc,
                  amount := round2 (min owe owed) } : SettlementM)] else
              ([] : List SettlementM)).length ≤ 1 := by
            split <;> simp
          omega

theorem settleLoop_length_or (wid : Nat) (ds cs : List (Nat × ℚ)) :
    settleLoop wid ds cs = [] ∨
      (settleLoop wid ds cs).length + 1 ≤ ds.length + cs.length :=
  settleLoop_length_or_fuel wid (ds.length + cs.length) ds cs le_rfl

theorem eval_debtors_skewed : debtorsOf fourMembers receiptsSkewed = [(11, 5)] := by
  norm_num [debtorsOf, fourMembers, receiptsSkewed, deltaOf, paidBy, totalSpend,
    receiptTotal, weightOf, totalWeight, orQ, settleEps, List.insertionSort,
    List.orderedInsert, amountGE]

theorem eval_creditors_skewed :
    creditorsOf fourMembers receiptsSkewed = [(12, 2), (13, 2), (14, 1)] := by
  norm_num [creditorsOf, fourMembers, receiptsSkewed, deltaOf, paidBy, totalSpend,
    receiptTotal, weightOf, totalWeight, orQ, settleEps, List.insertionSort,
    List.orderedInsert, amountGE]

theorem eval_settle_skewed : settleLoop 1 [((11 : Nat), (5 : ℚ))] [(12, 2), (13, 2), (14, 1)] =
    [⟨1, 11, 12, 2⟩, ⟨1, 11, 13, 2⟩, ⟨1, 11, 14, 1⟩] := by
  norm_num [settleLoop, settleEps, min_def, round2, roundHalfEven, Int.floor_intCast]

/-- Counterexample to claim C7 as stated: with one debtor and three
creditors (members 12, 13, 14 paid 7, 7, 6 of a spend of 20; deltas are
-5, +2, +2, +1), the greedy loop emits three transfers, exceeding
`min(#debtors, #creditors) = 1`. -/
theorem c7_counterexample :
    (debtorsOf fourMembers receiptsSkewed).length = 1 ∧
    (creditorsOf fourMembers receiptsSkewed).length = 3 ∧
    (settleLoop 1 (debtorsOf fourMembers receiptsSkewed)
      (creditorsOf fourMembers receiptsSkewed)).length = 3 ∧
    ¬ ((settleLoop 1 (debtorsOf fourMembers receiptsSkewed)
        (creditorsOf fourMembers receiptsSkewed)).length ≤
      min (debtorsOf fourMembers receiptsSkewed).length
        (creditorsOf fourMembers receiptsSkewed).length) := by
  rw [eval_debtors_skewed, eval_creditors_skewed, eval_settle_skewed]
  norm_num

/-- Claim C7 (amended): the closing operation's transfer set is exactly the
deterministic function `settleLoop` of the sorted debtor and creditor
lists, and when both lists are nonempty the loop emits at most
`#debtors + #creditors − 1` transfers — a bound that, unlike
`min(#debtors, #creditors)`, the loop actually satisfies. -/
theorem c7_amended_transfer_bound (wid : Nat) (members : List HouseholdUserM)
    (receipts : List ReceiptRowM) (hm : members ≠ []) (hs : 0 < totalSpend receipts) :
    close_week_settlement wid members receipts =
      CloseResult.closed (settleLoop wid (debtorsOf members receipts)
        (creditorsOf members receipts)) ∧
    (debtorsOf members receipts ≠ [] → creditorsOf members receipts ≠ [] →
      (settleLoop wid (debtorsOf members receipts) (creditorsOf members receipts)).length + 1 ≤
        (debtorsOf members receipts).length + (creditorsOf members receipts).length) := by
  constructor
  · unfold close_week_settlement
    rw [if_neg (by simpa using hm), if_neg (by linarith)]
  · intro hd hc
    rcases settleLoop_length_or wid (debtorsOf members receipts)
        (creditorsOf members receipts) with h0 | h1
    · rw [h0]
      have h1 := List.length_pos.mpr hd
      have h2 := List.length_pos.mpr hc
      simp only [List.length_nil]
      omega
    · exact h1

/-- Witness for C7 (amended) at the skewed four-member fixture. -/
theorem c7_amended_witness :
    close_week_settlement 1 fourMembers receiptsSkewed =
      CloseResult.closed (settleLoop 1 (debtorsOf fourMembers receiptsSkewed)
        (creditorsOf fourMembers receiptsSkewed)) ∧
    (settleLoop 1 (debtorsOf fourMembers receiptsSkewed)
        (creditorsOf fourMembers receiptsSkewed)).length + 1 ≤
      (debtorsOf fourMembers receiptsSkewed).length +
        (creditorsOf fourMembers receiptsSkewed).length := by
  have h := c7_amended_transfer_bound 1 fourMembers receiptsSkewed
    (by simp [fourMembers])
    (by norm_num [receiptsSkewed, totalSpend, receiptTotal])
  exact ⟨h.1, h.2 (by rw [eval_debtors_skewed]; simp) (by rw [eval_creditors_skewed]; simp)⟩

/-! ## Claim C1 -/

theorem roundHalfEven_close (y : ℚ) : |(roundHalfEven y : ℚ) - y| ≤ 1 / 2 := by
  unfold roundHalfEven
  have h1 : (⌊y⌋ : ℚ) ≤ y := Int.floor_le y
  have h2 : y < ⌊y⌋ + 1 := Int.lt_floor_add_one y
  dsimp only
  split
  · rename_i h
    rw [abs_le]
    constructor <;> push_cast <;> linarith
  · split
    · rename_i h h'
      rw [abs_le]
      push_cast
      constructor <;> linarith
    · split
      · rename_i h h' h''
        rw [abs_le]
        constructor <;> push_cast <;> linarith
      · rename_i h h' h''
        rw [abs_le]
        push_cast
        constructor <;> linarith

theorem round2_close (x : ℚ) : |round2 x - x| ≤ 1 / 200 := by
  unfold round2
  have h := roundHalfEven_close (100 * x)
  rw [abs_le] at h ⊢
  constructor <;> [linarith [h.1]; linarith [h.2]]

theorem totalSpend_cons (r : ReceiptRowM) (rs : List ReceiptRowM) :
    totalSpend (r :: rs) =
      (if 0 < receiptTotal r then receiptTotal r else 0) + totalSpend rs := by
  simp only [totalSpend, List.map_cons, List.filter_cons]
  split <;> simp_all [List.sum_cons]

theorem paidBy_cons (uid : Nat) (r : ReceiptRowM) (rs : List ReceiptRowM) :
    paidBy (r :: rs) uid =
      (if r.payer_id = uid then (if 0 < receiptTotal r then receiptTotal r else 0) else 0) +
        paidBy rs uid := by
  simp only [paidBy, List.filter_cons]
  split
  · simp only [List.map_cons, List.filter_cons]
    split <;> simp_all [List.sum_cons]
  · simp_all

theorem paidBy_pair (ua ub : Nat) (hne : ua ≠ ub) :
    ∀ rs : List ReceiptRowM, (∀ r ∈ rs, r.payer_id = ua ∨ r.payer_id = ub) →
      paidBy rs ua + paidBy rs ub = totalSpend rs := by
  intro rs
  induction rs with
  | nil => intro _; simp [paidBy, totalSpend]
  | cons r rs ih =>
    intro hall
    have hr := hall r (by simp)
    have ht := ih (fun r' hr' => hall r' (by simp [hr']))
    rw [paidBy_cons, paidBy_cons, totalSpend_cons]
    rcases hr with h | h
    · have hn : r.payer_id ≠ ub := by rw [h]; exact hne
      rw [if_pos h, if_neg hn]
      linarith
    · have hn : r.payer_id ≠ ua := by rw [h]; exact Ne.symm hne
      rw [if_neg hn, if_pos h]
      linarith

theorem deltaOf_two_sum (a b : HouseholdUserM) (rs : List ReceiptRowM)
    (hne : a.user_id ≠ b.user_id) (hw : weightOf a + weightOf b ≠ 0)
    (hpay : ∀ r ∈ rs, r.payer_id = a.user_id ∨ r.payer_id = b.user_id) :
    deltaOf [a, b] rs a + deltaOf [a, b] rs b = 0 := by
  have hp := paidBy_pair a.user_id b.user_id hne rs hpay
  have hW : totalWeight [a, b] = weightOf a + weightOf b := by
    simp only [totalWeight, List.map_cons, List.map_nil, List.sum_cons, List.sum_nil, add_zero]
    exact if_neg hw
  have hfair : totalSpend rs * (weightOf a / (weightOf a + weightOf b)) +
      totalSpend rs * (weightOf b / (weightOf a + weightOf b)) = totalSpend rs := by
    field_simp
    ring
  unfold deltaOf
  rw [hW]
  linarith

theorem settle_single (wid u1 u2 : Nat) (d : ℚ) (h : settleEps < d) :
    settleLoop wid [(u1, d)] [(u2, d)] = [⟨wid, u1, u2, round2 d⟩] := by
  have h0 : (0 : ℚ) < d := lt_trans (by norm_num [settleEps]) h
  rw [settleLoop]
  rw [min_self, if_pos h0, sub_self,
    if_pos (le_of_lt (by norm_num [settleEps] : (0 : ℚ) < settleEps))]
  simp [settleLoop]

theorem netOf_single_payee (wid u1 u2 : Nat) (m : ℚ) (hne : u1 ≠ u2) :
    netOf [⟨wid, u1, u2, m⟩] u2 = m := by
  simp [netOf, List.filter_cons, hne]

theorem netOf_single_payer (wid u1 u2 : Nat) (m : ℚ) (hne : u1 ≠ u2) :
    netOf [⟨wid, u1, u2, m⟩] u1 = -m := by
  simp [netOf, List.filter_cons, Ne.symm hne]

theorem eval_delta_rounding : deltaOf fourMembers receiptsRounding ⟨11, none⟩ = 18753 / 250 := by
  norm_num [deltaOf, fourMembers, receiptsRounding, paidBy, totalSpend, receiptTotal,
    weightOf, totalWeight, orQ]

theorem eval_debtors_rounding : debtorsOf fourMembers receiptsRounding =
    [(12, 6251 / 250), (13, 6251 / 250), (14, 6251 / 250)] := by
  norm_num [debtorsOf, fourMembers, receiptsRounding, deltaOf, paidBy, totalSpend,
    receiptTotal, weightOf, totalWeight, orQ, settleEps, List.insertionSort,
    List.orderedInsert, amountGE]

theorem eval_creditors_rounding : creditorsOf fourMembers receiptsRounding =
    [(11, 18753 / 250)] := by
  norm_num [creditorsOf, fourMembers, receiptsRounding, deltaOf, paidBy, totalSpend,
    receiptTotal, weightOf, totalWeight, orQ, settleEps, List.insertionSort,
    List.orderedInsert, amountGE]

theorem eval_settle_rounding :
    settleLoop 9 [((12 : Nat), (6251 / 250 : ℚ)), (13, 6251 / 250), (14, 6251 / 250)]
      [(11, 18753 / 250)] =
      [⟨9, 12, 11, 25⟩, ⟨9, 13, 11, 25⟩, ⟨9, 14, 11, 25⟩] := by
  norm_num [settleLoop, settleEps, min_def, round2, roundHalfEven]

theorem eval_close_rounding : close_week_settlement 9 fourMembers receiptsRounding =
    CloseResult.closed [⟨9, 12, 11, 25⟩, ⟨9, 13, 11, 25⟩, ⟨9, 14, 11, 25⟩] := by
  unfold close_week_settlement
  rw [if_neg (by simp [fourMembers]),
    if_neg (by norm_num [receiptsRounding, totalSpend, receiptTotal]),
    eval_debtors_rounding, eval_creditors_rounding, eval_settle_rounding]

/-- Counterexample to claim C1 as stated: four equal-weight members, one
receipt of 100.016 paid by member 11.  Member 11's delta is 75.012, but the
three recorded incoming transfers are each rounded to 25.00, so the net of
75.00 misses the delta by 0.012 > ε = 0.005. -/
theorem c1_counterexample :
    close_week_settlement 9 fourMembers receiptsRounding =
      CloseResult.closed [⟨9, 12, 11, 25⟩, ⟨9, 13, 11, 25⟩, ⟨9, 14, 11, 25⟩] ∧
    ¬ (|netOf [⟨9, 12, 11, 25⟩, ⟨9, 13, 11, 25⟩, ⟨9, 14, 11, 25⟩] 11 -
        deltaOf fourMembers receiptsRounding ⟨11, none⟩| ≤ 5 / 1000) := by
  refine ⟨eval_close_rounding, ?_⟩
  rw [eval_delta_rounding]
  norm_num [netOf, List.filter_cons, abs_le]

/-- Claim C1 (amended): in a two-member household — one debtor matched
with one creditor, hence a single rounding — every member's net transfer
amount equals that member's delta to within ε = 0.005.  With more members
each extra transfer can add up to half a cent of rounding error, so the
bound fails in general (see the counterexample). -/
theorem c1_amended_two_member_netting (wid : Nat) (a b : HouseholdUserM)
    (rs : List ReceiptRowM) (ts : List SettlementM)
    (hne : a.user_id ≠ b.user_id)
    (hw : weightOf a + weightOf b ≠ 0)
    (hpay : ∀ r ∈ rs, r.payer_id = a.user_id ∨ r.payer_id = b.user_id)
    (hclose : close_week_settlement wid [a, b] rs = CloseResult.closed ts) :
    |netOf ts a.user_id - deltaOf [a, b] rs a| ≤ 1 / 200 ∧
      |netOf ts b.user_id - deltaOf [a, b] rs b| ≤ 1 / 200 := by
  unfold close_week_settlement at hclose
  rw [if_neg (by simp)] at hclose
  split at hclose
  · cases hclose
  · have hts := CloseResult.closed.inj hclose
    have hsum := deltaOf_two_sum a b rs hne hw hpay
    have hb : deltaOf [a, b] rs b = -(deltaOf [a, b] rs a) := by linarith
    have hmap : ([a, b].map (fun m => (m.user_id, deltaOf [a, b] rs m))) =
        [(a.user_id, deltaOf [a, b] rs a), (b.user_id, -(deltaOf [a, b] rs a))] := by
      simp [hb]
    have hepspos : (0 : ℚ) < settleEps := by norm_num [settleEps]
    by_cases h1 : settleEps < deltaOf [a, b] rs a
    · have hcred : creditorsOf [a, b] rs = [(a.user_id, deltaOf [a, b] rs a)] := by
        unfold creditorsOf
        rw [hmap]
        have hnb : ¬ (settleEps < -(deltaOf [a, b] rs a)) := by push_neg; linarith
        simp [List.filter_cons, h1, hnb, List.insertionSort, List.orderedInsert]
      have hdebt : debtorsOf [a, b] rs = [(b.user_id, deltaOf [a, b] rs a)] := by
        unfold debtorsOf
        rw [hmap]
        have hna : ¬ (deltaOf [a, b] rs a < -settleEps) := by push_neg; linarith
        have hyb : -(deltaOf [a, b] rs a) < -settleEps := by linarith
        simp [List.filter_cons, hna, hyb, List.insertionSort, List.orderedInsert]
      rw [← hts, hcred, hdebt, settle_single wid b.user_id a.user_id _ h1]
      rw [netOf_single_payee wid b.user_id a.user_id _ (Ne.symm hne),
        netOf_single_payer wid b.user_id a.user_id _ (Ne.symm hne), hb]
      refine ⟨round2_close _, ?_⟩
      rw [show -(round2 (deltaOf [a, b] rs a)) - -(deltaOf [a, b] rs a) =
        -(round2 (deltaOf [a, b] rs a) - deltaOf [a, b] rs a) from by ring, abs_neg]
      exact round2_close _
    · by_cases h2 : deltaOf [a, b] rs a < -settleEps
      · have hcred : creditorsOf [a, b] rs = [(b.user_id, -(deltaOf [a, b] rs a))] := by
          unfold creditorsOf
          rw [hmap]
          have hyb : settleEps < -(deltaOf [a, b] rs a) := by linarith
          have hna : ¬ (settleEps < deltaOf [a, b] rs a) := h1
          simp [List.filter_cons, hyb, hna, List.insertionSort, List.orderedInsert]
        have hdebt : debtorsOf [a, b] rs = [(a.user_id, -(deltaOf [a, b] rs a))] := by
          unfold debtorsOf
          rw [hmap]
          have hnb : ¬ (-(deltaOf [a, b] rs a) < -settleEps) := by push_neg; linarith
          simp [List.filter_cons, h2, hnb, List.insertionSort, List.orderedInsert]
        rw [← hts, hcred, hdebt,
          settle_single wid a.user_id b.user_id _ (by linarith)]
        rw [netOf_single_payee wid a.user_id b.user_id _ hne,
          netOf_single_payer wid a.user_id b.user_id _ hne, hb]
        constructor
        · rw [show -(round2 (-(deltaOf [a, b] rs a))) - deltaOf [a, b] rs a =
            -(round2 (-(deltaOf [a, b] rs a)) - -(deltaOf [a, b] rs a)) from by ring, abs_neg]
          exact round2_close _
        · exact round2_close _
      · have hcred : creditorsOf [a, b] rs = [] := by
          unfold creditorsOf
          rw [hmap]
          have hnb : ¬ (settleEps < -(deltaOf [a, b] rs a)) := by push_neg; linarith
          simp [List.filter_cons, h1, hnb, List.insertionSort]
        have hdebt : debtorsOf [a, b] rs = [] := by
          unfold debtorsOf
          rw [hmap]
          have hnb : ¬ (-(deltaOf [a, b] rs a) < -settleEps) := by push_neg; linarith
          simp [List.filter_cons, h2, hnb, List.insertionSort]
        rw [← hts, hcred, hdebt]
        rw [show settleLoop wid [] [] = [] from by simp [settleLoop]]
        simp only [netOf, List.filter_nil, List.map_nil, List.sum_nil, sub_self, zero_sub,
          abs_neg]
        have hde : settleEps = 1 / 200 := by norm_num [settleEps]
        rw [hde] at h1 h2
        push_neg at h1 h2
        constructor
        · rw [abs_le]
          constructor <;> linarith
        · rw [hb, abs_neg, abs_le]
          constructor <;> linarith

/-- Witness for C1 (amended): two equal-weight members, member 1 pays a
receipt of 100; the single transfer of 50.00 nets both deltas exactly. -/
theorem c1_amended_witness :
    |netOf [⟨3, 2, 1, 50⟩] 1 - deltaOf twoMembers receiptsHundred ⟨1, none⟩| ≤ 1 / 200 ∧
      |netOf [⟨3, 2, 1, 50⟩] 2 - deltaOf twoMembers receiptsHundred ⟨2, none⟩| ≤ 1 / 200 :=
  c1_amended_two_member_netting 3 ⟨1, none⟩ ⟨2, none⟩ receiptsHundred [⟨3, 2, 1, 50⟩]
    (by decide) (by norm_num [weightOf, orQ])
    (by intro r hr; rcases List.mem_singleton.mp hr with h; rw [h]; left; rfl)
    (by
      unfold close_week_settlement
      rw [if_neg (by simp),
        if_neg (by norm_num [receiptsHundred, totalSpend, receiptTotal])]
      have hd : debtorsOf [⟨1, none⟩, ⟨2, none⟩] receiptsHundred = [(2, 50)] := by
        norm_num [debtorsOf, receiptsHundred, deltaOf, paidBy, totalSpend,
          receiptTotal, weightOf, totalWeight, orQ, settleEps, List.insertionSort,
          List.orderedInsert, amountGE]
      have hc : creditorsOf [⟨1, none⟩, ⟨2, none⟩] receiptsHundred = [(1, 50)] := by
        norm_num [creditorsOf, receiptsHundred, deltaOf, paidBy, totalSpend,
          receiptTotal, weightOf, totalWeight, orQ, settleEps, List.insertionSort,
          List.orderedInsert, amountGE]
      rw [hd, hc, settle_single 3 2 1 50 (by norm_num [settleEps])]
      norm_num [round2, roundHalfEven])

/-! ## Claim C2 -/

/-- Counterexample to claim C2 as stated: with the embedding capability
absent (not configured), `find_matches_for_receipt_line` raises
`RuntimeError` instead of returning the lexical-only candidate list. -/
theorem c2_counterexample :
    find_matches_for_receipt_line tomatoDb gemOff tomatoLine 1 =
      Except.error "Gemini AI is required for matching but is not configured" ∧
    find_matches_for_receipt_line tomatoDb gemOff tomatoLine 1 ≠
      Except.ok (lexical_only_candidates tomatoDb tomatoLine 1) := by
  refine ⟨rfl, ?_⟩
  simp [find_matches_for_receipt_line, gemOff]

/-- Claim C2 (amended): only the FAILURE of a configured embedding
capability falls back to the lexical result — when Gemini is configured
but its rewrite returns nothing and its embedding call fails, the pipeline
returns exactly the lexical-only candidate list.  Absence (not configured)
instead raises `RuntimeError` past the matching boundary. -/
theorem c2_amended_failure_fallback (db : DbModel) (g : GeminiModel) (line : ReceiptLineM)
    (week_id : Nat) (hen : g.enabled = true) (hnt : g.normText = none)
    (hes : g.embedSims = none) :
    find_matches_for_receipt_line db g line week_id =
      Except.ok (lexical_only_candidates db line week_id) := by
  simp only [find_matches_for_receipt_line, lexical_only_candidates, normalizedCandidate,
    blendEmbedding, hen, hnt, hes, Bool.not_true, Bool.false_eq_true, if_false]
  split <;> simp [*]

/-- Witness for C2 (amended) at the one-ingredient catalog: configured
Gemini with a failed embedding call returns the lexical-only list. -/
theorem c2_amended_witness :
    find_matches_for_receipt_line tomatoDb gemOn tomatoLine 1 =
      Except.ok (lexical_only_candidates tomatoDb tomatoLine 1) :=
  c2_amended_failure_fallback tomatoDb gemOn tomatoLine 1 rfl rfl rfl

/-! ## Claim C3 -/

/-- Counterexample to claim C3 as stated: the plural stripper is not
idempotent.  `normalize "glasses" = "glass"` (the `ses → s` rule), but a
second pass strips the trailing `s` again: `normalize "glass" = "glas"`. -/
theorem c3_counterexample :
    normalize (normalize "glasses") ≠ normalize "glasses" := by
  decide

/-- Claim C3 (amended): `normalize` is idempotent only on its fixed
points — inputs already in normalized form are unchanged by another pass.
On general inputs a second application can differ (see the
counterexample), because `_singularize` strips a plural suffix from words
the first pass already singularized. -/
theorem c3_amended_idempotent_on_fixed_points (x : String) (h : normalize x = x) :
    normalize (normalize x) = normalize x := by
  rw [h]
  exact h

/-- Witness for C3 (amended): "tomato" is a fixed point of `normalize`. -/
theorem c3_amended_witness : normalize (normalize "tomato") = normalize "tomato" :=
  c3_amended_idempotent_on_fixed_points "tomato" (by decide)

/-! ## Claim C5 -/

/-- Claim C5 shows a genuine code bug: the composite pattern
`(\d+...)\s*x\s*(\d+...)\s*(g|ml|oz)` is listed LAST in
`quantity_patterns` (behind an in-code comment announcing "3 x 500g"
support), and the first pattern's `re.search` already matches the
substring "500g".  So `parse_quantity_unit("3 x 500g")` returns
`(500.0, "g")`, not the `(1500.0, "g")` the spec promises. -/
theorem c5_composite_pattern_dead :
    parse_quantity_unit "3 x 500g" = (500, "g") ∧
    parse_quantity_unit "3 x 500g" ≠ (1500, "g") := by
  constructor
  · decide
  · decide

/-! ## Claim C4 -/

theorem apply_context_boost_inactive (db : DbModel) (ms : List MatchResult) (week_id : Nat)
    (hw : db.weeks.contains week_id = false) :
    apply_context_boost db ms week_id = ms := by
  unfold apply_context_boost
  rw [hw]
  rfl

theorem apply_learning_boost_empty (db : DbModel) (ms : List MatchResult) (nt : String)
    (hc : db.confirmations = []) :
    apply_learning_boost db ms nt = ms := by
  simp [apply_learning_boost, hc]

theorem multi_stage_sorted (nt : String) (ings : List RecipeIngredientM) (line : ReceiptLineM) :
    List.Sorted confGE (multi_stage_matching nt ings line) :=
  List.sorted_insertionSort confGE _

theorem multi_stage_mem_exact (nt : String) (ings : List RecipeIngredientM)
    (line : ReceiptLineM) (ing : RecipeIngredientM) (hing : ing ∈ ings)
    (hname : nt = normalize ing.name) :
    create_match_result ing 1 line "Exact normalized match" ∈
      multi_stage_matching nt ings line := by
  unfold multi_stage_matching
  refine (List.perm_insertionSort confGE _).mem_iff.mpr ?_
  refine List.mem_filterMap.mpr ⟨ing, hing, ?_⟩
  dsimp only
  rw [if_pos hname]

theorem take5_head_conf_one (l : List MatchResult) (hs : List.Sorted confGE l)
    (hb : ∀ m ∈ l, m.confidence ≤ 1) (e : MatchResult) (he : e ∈ l)
    (he1 : e.confidence = 1) :
    ∃ m, (l.take 5).head? = some m ∧ m.confidence = 1 := by
  cases l with
  | nil => cases he
  | cons x xs =>
    refine ⟨x, rfl, ?_⟩
    rcases List.mem_cons.mp he with rfl | hx
    · exact he1
    · have hgex : e.confidence ≤ x.confidence := (List.sorted_cons.mp hs).1 e hx
      rw [he1] at hgex
      exact le_antisymm (hb x (List.mem_cons_self x xs)) hgex

/-- Counterexample to claim C4 as stated: the line "tomato" normalizes
exactly to the catalog name "tomato", yet the returned top candidate has
confidence 0.8, not 1.0 — `_create_match_result` multiplies even an exact
match by 0.8 when the unit parsed from the raw text is incompatible with
the ingredient's unit ("unit" vs "kg"). -/
theorem c4_counterexample :
    normalize tomatoLine.raw_text = normalize tomatoKgIng.name ∧
    find_matches_for_receipt_line tomatoDb gemOn tomatoLine 1 = Except.ok [tomatoKgMR] ∧
    tomatoKgMR.confidence ≠ 1 := by
  refine ⟨by decide, eval_find_kg, ?_⟩
  norm_num [tomatoKgMR]

/-- Claim C4 (amended): the exact-match rule holds only when the unit
parsed from the raw line text is compatible with the ingredient's unit
(otherwise the 0.8 penalty strikes), and in the absence of rewrite,
embedding and boost interference: then the pipeline succeeds and its top
candidate has confidence exactly 1. -/
theorem c4_amended_exact_top (db : DbModel) (g : GeminiModel) (line : ReceiptLineM)
    (week_id : Nat) (ms : List MatchResult) (ing : RecipeIngredientM)
    (hen : g.enabled = true) (hnt : g.normText = none) (hes : g.embedSims = none)
    (hw : db.weeks.contains week_id = false) (hc : db.confirmations = [])
    (hing : ing ∈ db.ingredients)
    (hname : normalize line.raw_text = normalize ing.name)
    (hu : are_units_compatible (parse_quantity_unit line.raw_text).2 ing.unit = true)
    (hok : find_matches_for_receipt_line db g line week_id = Except.ok ms) :
    ∃ m, ms.head? = some m ∧ m.confidence = 1 := by
  have hne : db.ingredients.isEmpty = false := by
    cases hi : db.ingredients with
    | nil => rw [hi] at hing; cases hing
    | cons a as => rfl
  unfold find_matches_for_receipt_line at hok
  rw [hen] at hok
  simp only [Bool.not_true, Bool.false_eq_true, if_false, hne, normalizedCandidate, hnt, hes,
    blendEmbedding] at hok
  rw [apply_context_boost_inactive _ _ _ hw, apply_learning_boost_empty _ _ _ hc] at hok
  have hms : ms = (multi_stage_matching (normalize line.raw_text) db.ingredients line).take 5 :=
    (Except.ok.inj hok).symm
  subst hms
  have he1 : (create_match_result ing 1 line "Exact normalized match").confidence = 1 := by
    simp [create_match_result, hu]
  exact take5_head_conf_one _ (multi_stage_sorted _ _ _)
    (fun m hm => (multi_stage_conf_bounds _ _ _ m hm).2) _
    (multi_stage_mem_exact _ _ _ ing hing hname) he1

/-- Witness for C4 (amended): the count-unit tomato catalog; the sole
candidate is the exact match with confidence 1. -/
theorem c4_amended_witness :
    ∃ m, ([tomatoUnitMR] : List MatchResult).head? = some m ∧ m.confidence = 1 :=
  c4_amended_exact_top tomatoUnitDb gemOn tomatoLine 1 [tomatoUnitMR] tomatoUnitIng
    rfl rfl rfl rfl rfl (by simp [tomatoUnitDb]) (by decide) (by decide) eval_find_unit

/-! ## Claim C6 -/

theorem eval_normalize_sauce : normalize "tomato sauce" = "tomato sauce" := by decide

theorem eval_lcs_sauce : lcs "tomato".data "tomato sauce".data = 6 := by decide

theorem eval_fuzz_sauce : fuzzScore "tomato" "tomato sauce" = 2 / 3 := by
  unfold fuzzScore
  rw [if_neg (by decide), eval_lcs_sauce, show "tomato".data.length = 6 from by decide,
    show "tomato sauce".data.length = 12 from by decide]
  norm_num

theorem eval_multi_two : multi_stage_matching "tomato" [tomatoUnitIng, sauceIng] tomatoLine =
    [tomatoUnitMR, sauceMR] := by
  simp only [multi_stage_matching, tomatoUnitIng, sauceIng, tomatoLine, tomatoUnitMR, sauceMR,
    List.filterMap_cons, List.filterMap_nil, create_match_result, eval_normalize_tomato,
    eval_normalize_sauce, eval_parse_tomato, eval_units_unit_unit, eval_fuzz_sauce,
    get_fuzzy_reason, orQ, min_threshold, medium_confidence_threshold,
    high_confidence_threshold, exact_threshold]
  norm_num [List.insertionSort, List.orderedInsert, confGE]

theorem eval_find_twoIng : find_matches_for_receipt_line twoIngDb gemSims01 tomatoLine 1 =
    Except.ok [tomatoBlendMR, sauceBlendMR] := by
  simp only [find_matches_for_receipt_line, twoIngDb, gemSims01, normalizedCandidate]
  rw [show tomatoLine.raw_text = "tomato" from rfl, eval_normalize_tomato, eval_multi_two]
  norm_num [blendEmbedding, apply_context_boost, apply_learning_boost, cosineClamp,
    tomatoUnitMR, sauceMR, tomatoBlendMR, sauceBlendMR, tomatoUnitIng, sauceIng,
    List.find?, min_def]

/-- Counterexample to claim C6 as stated: the sort happens BEFORE the
embedding blend and the boosts, which can raise a lower candidate past the
one above it.  With the embedding oracle scoring "tomato sauce" 1 and
"tomato" 0, the returned list is [0.3, 0.9] — not descending. -/
theorem c6_counterexample :
    find_matches_for_receipt_line twoIngDb gemSims01 tomatoLine 1 =
      Except.ok [tomatoBlendMR, sauceBlendMR] ∧
    ¬ List.Sorted confGE [tomatoBlendMR, sauceBlendMR] := by
  refine ⟨eval_find_twoIng, ?_⟩
  intro h
  have hle : confGE tomatoBlendMR sauceBlendMR :=
    (List.sorted_cons.mp h).1 sauceBlendMR (by simp)
  norm_num [confGE, tomatoBlendMR, sauceBlendMR] at hle

/-- Claim C6 (amended): the returned candidate list is capped at 5, and
the descending-confidence order is established on the multi-stage list
BEFORE the embedding blend and the boosts; the final list is not sorted
again, so post-blend confidences need not descend (see the
counterexample). -/
theorem c6_amended_cap_and_presort (db : DbModel) (g : GeminiModel) (line : ReceiptLineM)
    (week_id : Nat) (ts : List MatchResult)
    (h : find_matches_for_receipt_line db g line week_id = Except.ok ts) :
    ts.length ≤ 5 ∧
      List.Sorted confGE (multi_stage_matching
        (normalizedCandidate g (normalize line.raw_text)) db.ingredients line) := by
  refine ⟨?_, multi_stage_sorted _ _ _⟩
  unfold find_matches_for_receipt_line at h
  split at h
  · cases h
  · split at h
    · cases Except.ok.inj h
      simp
    · cases Except.ok.inj h
      rw [List.length_take]
      exact min_le_left _ _

/-- Witness for C6 (amended) at the two-ingredient catalog. -/
theorem c6_amended_witness :
    ([tomatoBlendMR, sauceBlendMR] : List MatchResult).length ≤ 5 ∧
      List.Sorted confGE (multi_stage_matching
        (normalizedCandidate gemSims01 (normalize tomatoLine.raw_text)) twoIngDb.ingredients
        tomatoLine) :=
  c6_amended_cap_and_presort twoIngDb gemSims01 tomatoLine 1 _ eval_find_twoIng

/-! ## Claim C8 -/

theorem auto_match_store_shape (db : DbModel) (g : GeminiModel) (line : ReceiptLineM)
    (week_id : Nat) (store : List LineMatchM) (opt : Option LineMatchM)
    (st2 : List LineMatchM)
    (h : auto_match_high_confidence db g line week_id store = .ok (opt, st2)) :
    st2 = store ∨ ∃ lm : LineMatchM, lm.receipt_line_id = line.id ∧ st2 = store ++ [lm] := by
  unfold auto_match_high_confidence at h
  split at h
  · cases h
  · simp only [Except.ok.injEq, Prod.mk.injEq] at h
    exact Or.inl h.2.symm
  · split at h
    · simp only [Except.ok.injEq, Prod.mk.injEq] at h
      exact Or.inr ⟨_, rfl, h.2.symm⟩
    · simp only [Except.ok.injEq, Prod.mk.injEq] at h
      exact Or.inl h.2.symm

/-- Counterexample to claim C8 as stated:
`AdvancedMatchingService.auto_match_high_confidence` performs no check for
an existing `LineMatch` before inserting.  Called twice in a row on the
same line with the count-unit tomato catalog, it inserts the same row
twice: the store then holds two rows for receipt line 7. -/
theorem c8_counterexample :
    auto_match_high_confidence tomatoUnitDb gemOn tomatoLine 1 [] =
      Except.ok (some tomatoLM, [tomatoLM]) ∧
    auto_match_high_confidence tomatoUnitDb gemOn tomatoLine 1 [tomatoLM] =
      Except.ok (some tomatoLM, [tomatoLM, tomatoLM]) ∧
    (([tomatoLM, tomatoLM] : List LineMatchM).filter
      (fun lm => lm.receipt_line_id = tomatoLine.id)).length ≠ 1 := by
  refine ⟨?_, ?_, by decide⟩ <;>
    · simp only [auto_match_high_confidence, eval_find_unit]
      norm_num [exact_threshold, tomatoUnitMR, tomatoLine, orQ, orStr, tomatoLM]

/-- Claim C8 (amended): idempotence holds one level up, at the endpoint.
`get_receipt_pending_matches` only hands a line to auto-match when the
line has no `line_matches` row, so repeating the endpoint operation on the
same line leaves the store unchanged; the service method itself performs
no existence check (see the counterexample). -/
theorem c8_amended_endpoint_idempotent (db : DbModel) (g : GeminiModel) (week_id : Nat)
    (store : List LineMatchM) (line : ReceiptLineM) :
    endpoint_auto_match db g week_id (endpoint_auto_match db g week_id store line) line =
      endpoint_auto_match db g week_id store line := by
  unfold endpoint_auto_match
  by_cases h0 : store.any (fun lm => lm.receipt_line_id = line.id) = true
  · rw [if_pos h0, if_pos h0]
  · rw [if_neg h0]
    cases hm : auto_match_high_confidence db g line week_id store with
    | error e =>
      simp only [hm]
      rw [if_neg h0]
    | ok p =>
      obtain ⟨opt, st2⟩ := p
      simp only [hm]
      rcases auto_match_store_shape db g line week_id store opt st2 hm with h | ⟨lm, hlm, h⟩
      · subst h
        rw [if_neg h0]
        simp only [hm]
      · subst h
        have hany : (store ++ [lm]).any (fun l => l.receipt_line_id = line.id) = true := by
          simp [List.any_append, hlm]
        rw [if_pos hany]

end MealSplit
